import Mathlib

/-!
Shallow embedding of the kweens puzzle engine
(`src/games/kweens/logic.ts`, `solvablePuzzles.ts`, the `ConnectivityValidator`
module and the `GameScreen` board-mutation handlers), together with proofs of
the specification's claims about it.

Grids are lists of rows; out-of-range reads return a default, matching the
fact that the TypeScript code only ever indexes in bounds (the theorems carry
explicit squareness hypotheses where the code relies on that).
-/

set_option maxRecDepth 40000

namespace Kweens

/-- The five board cell states of `types.ts`. -/
inductive CellState where
  | empty
  | queen
  | xmark
  | dot
  | forbidden
deriving DecidableEq, Repr

abbrev Grid (α : Type) := List (List α)

abbrev Board := Grid CellState

/-- A puzzle as in `types.ts`: size and region-label grid (ids are numbers;
the flood-fill generator also uses the sentinel `-1`, hence `Int`). The
string `id`/`name` fields are not semantically load-bearing and are omitted. -/
structure Puzzle where
  size : Nat
  regions : Grid Int
deriving DecidableEq, Repr

/-- Read a grid cell, with a default for out-of-range indices. -/
def gridGet {α : Type} (d : α) (g : Grid α) (r c : Nat) : α :=
  (g.getD r []).getD c d

def cellAt (b : Board) (r c : Nat) : CellState := gridGet CellState.empty b r c

def regionAt (p : Puzzle) (r c : Nat) : Int := gridGet 0 p.regions r c

/-- Write a grid cell (no-op out of range, as the theorems never need it). -/
def gridSet {α : Type} (g : Grid α) (r c : Nat) (v : α) : Grid α :=
  g.set r ((g.getD r []).set c v)

/-- The grid is an n-by-n matrix. -/
def SquareGrid {α : Type} (g : Grid α) (n : Nat) : Prop :=
  g.length = n ∧ ∀ row ∈ g, row.length = n

instance {α : Type} (g : Grid α) (n : Nat) : Decidable (SquareGrid g n) := by
  unfold SquareGrid; infer_instance

/-- Board and puzzle have matching n-by-n dimensions. -/
def Matching (b : Board) (p : Puzzle) (n : Nat) : Prop :=
  p.size = n ∧ SquareGrid b n ∧ SquareGrid p.regions n

instance (b : Board) (p : Puzzle) (n : Nat) : Decidable (Matching b p n) := by
  unfold Matching; infer_instance

/-! Basic grid lemmas. -/

theorem getD_set_row {α : Type} (g : Grid α) (r : Nat) (x : List α) (r' : Nat) :
    (g.set r x).getD r' [] = if r = r' ∧ r < g.length then x else g.getD r' [] := by
  by_cases h : r = r' ∧ r < g.length
  · obtain ⟨h1, h2⟩ := h
    subst h1
    rw [if_pos ⟨rfl, h2⟩, List.getD_eq_getElem _ _ (by simpa using h2),
      List.getElem_set_self (by simpa using h2)]
  · rw [if_neg h]
    rcases Nat.lt_or_ge r g.length with hr | hr
    · have hne : r ≠ r' := fun he => h ⟨he, hr⟩
      rcases Nat.lt_or_ge r' g.length with hr' | hr'
      · rw [List.getD_eq_getElem _ _ (by simpa using hr'),
          List.getD_eq_getElem _ _ hr', List.getElem_set_ne hne]
      · rw [List.getD_eq_default _ _ (by simpa using hr'),
          List.getD_eq_default _ _ hr']
    · rw [List.set_eq_of_length_le hr]

theorem getD_set_cell {α : Type} (d : α) (l : List α) (c : Nat) (v : α) (c' : Nat) :
    (l.set c v).getD c' d = if c = c' ∧ c < l.length then v else l.getD c' d := by
  by_cases h : c = c' ∧ c < l.length
  · obtain ⟨h1, h2⟩ := h
    subst h1
    rw [if_pos ⟨rfl, h2⟩, List.getD_eq_getElem _ _ (by simpa using h2),
      List.getElem_set_self (by simpa using h2)]
  · rw [if_neg h]
    rcases Nat.lt_or_ge c l.length with hc | hc
    · have hne : c ≠ c' := fun he => h ⟨he, hc⟩
      rcases Nat.lt_or_ge c' l.length with hc' | hc'
      · rw [List.getD_eq_getElem _ _ (by simpa using hc'),
          List.getD_eq_getElem _ _ hc', List.getElem_set_ne hne]
      · rw [List.getD_eq_default _ _ (by simpa using hc'),
          List.getD_eq_default _ _ hc']
    · rw [List.set_eq_of_length_le hc]

theorem gridGet_set {α : Type} (d : α) (g : Grid α) {n : Nat}
    (hg : SquareGrid g n) (r c : Nat) (v : α) (r' c' : Nat) :
    gridGet d (gridSet g r c v) r' c' =
      if r = r' ∧ c = c' ∧ r < n ∧ c < n then v else gridGet d g r' c' := by
  obtain ⟨hlen, hrow⟩ := hg
  unfold gridGet gridSet
  rw [getD_set_row]
  by_cases hr : r = r' ∧ r < g.length
  · obtain ⟨h1, h2⟩ := hr
    subst h1
    rw [if_pos ⟨rfl, h2⟩, getD_set_cell]
    have hrowlen : (g.getD r []).length = n := by
      rw [List.getD_eq_getElem _ _ h2]
      exact hrow _ (List.getElem_mem h2)
    by_cases hc : c = c' ∧ c < n
    · rw [if_pos ⟨hc.1, by omega⟩, if_pos ⟨rfl, hc.1, by omega, hc.2⟩]
    · have h3 : ¬ (c = c' ∧ c < (g.getD r []).length) := by
        rw [hrowlen]; exact hc
      rw [if_neg h3, if_neg (by tauto)]
  · have h3 : ¬ (r = r' ∧ c = c' ∧ r < n ∧ c < n) := by
      intro h4
      exact hr ⟨h4.1, by omega⟩
    rw [if_neg hr, if_neg h3]

theorem squareGrid_set {α : Type} {g : Grid α} {n : Nat}
    (hg : SquareGrid g n) (r c : Nat) (v : α) : SquareGrid (gridSet g r c v) n := by
  obtain ⟨hlen, hrow⟩ := hg
  rcases Nat.lt_or_ge r g.length with hr | hr
  · refine ⟨by simpa [gridSet] using hlen, ?_⟩
    intro row hmem
    unfold gridSet at hmem
    rcases List.mem_or_eq_of_mem_set hmem with h | h
    · exact hrow _ h
    · subst h
      rw [List.length_set, List.getD_eq_getElem _ _ hr]
      exact hrow _ (List.getElem_mem hr)
  · unfold gridSet
    rw [List.set_eq_of_length_le hr]
    exact ⟨hlen, hrow⟩

/-! The conflict/win evaluator (`logic.ts`, lines 385-488). -/

/-- Source: `countQueens` — count of cells in state `queen` over the flattened board. -/
def countQueens (b : Board) : Nat :=
  (b.flatten.filter fun s => decide (s = CellState.queen)).length

/-- The four diagonal offsets used throughout `logic.ts`. -/
def diagDirs : List (Int × Int) := [(-1, -1), (-1, 1), (1, -1), (1, 1)]

/-- Source: `isDiagonalTouch` — some immediately diagonally adjacent cell holds a queen. -/
def isDiagonalTouch (b : Board) (r c : Nat) : Bool :=
  let n : Int := b.length
  diagDirs.any fun dd =>
    let rr : Int := (r : Int) + dd.1
    let cc : Int := (c : Int) + dd.2
    decide (0 ≤ rr) && decide (rr < n) && decide (0 ≤ cc) && decide (cc < n) &&
      decide (cellAt b rr.toNat cc.toNat = CellState.queen)

/-- Number of queens in row `r` (the `rowCounts` pass of `computeConflicts`). -/
def rowQueenCount (n : Nat) (b : Board) (r : Nat) : Nat :=
  (List.range n).countP fun c => decide (cellAt b r c = CellState.queen)

/-- Number of queens in column `c` (the `colCounts` pass of `computeConflicts`). -/
def colQueenCount (n : Nat) (b : Board) (c : Nat) : Nat :=
  (List.range n).countP fun r => decide (cellAt b r c = CellState.queen)

/-- All cell coordinates of an n-by-n grid in row-major scan order. -/
def pairsUpTo (n : Nat) : List (Nat × Nat) :=
  (List.range n).flatMap fun r => (List.range n).map fun c => (r, c)

/-- Deduplication keeping first occurrences, as a JS `Set`/`Map` accumulates keys. -/
def dedupFirst {α : Type} [DecidableEq α] (l : List α) : List α :=
  l.foldl (fun acc a => if a ∈ acc then acc else acc ++ [a]) []

/-- All region labels of the puzzle in scan order (with repetitions). -/
def regionValuesList (p : Puzzle) (n : Nat) : List Int :=
  (pairsUpTo n).map fun rc => regionAt p rc.1 rc.2

/-- The queen cells holding region label `v` (the `regionCells` grouping filtered to queens). -/
def queenCellsOfRegion (n : Nat) (b : Board) (p : Puzzle) (v : Int) : List (Nat × Nat) :=
  (pairsUpTo n).filter fun rc =>
    decide (regionAt p rc.1 rc.2 = v ∧ cellAt b rc.1 rc.2 = CellState.queen)

/-- Number of queens among the cells of region label `v`. -/
def regionQueenCount (n : Nat) (b : Board) (p : Puzzle) (v : Int) : Nat :=
  (queenCellsOfRegion n b p v).length

/-- First pass of `computeConflicts`: an all-false grid with diagonal touches
flagged on queen cells. -/
def diagBase (n : Nat) (b : Board) : Grid Bool :=
  (List.range n).map fun r => (List.range n).map fun c =>
    decide (cellAt b r c = CellState.queen) && isDiagonalTouch b r c

/-- Set every listed position of a conflict grid to `true` (the shape of every
marking loop in `computeConflicts`). -/
def markCells (cf : Grid Bool) (ps : List (Nat × Nat)) : Grid Bool :=
  ps.foldl (fun g rc => gridSet g rc.1 rc.2 true) cf

/-- The queen cells of row `r` in column order (the body of `markRow`). -/
def queenCellsInRow (n : Nat) (b : Board) (r : Nat) : List (Nat × Nat) :=
  (List.range n).filterMap fun c =>
    if cellAt b r c = CellState.queen then some (r, c) else none

/-- The queen cells of column `c` in row order (the body of `markCol`). -/
def queenCellsInCol (n : Nat) (b : Board) (c : Nat) : List (Nat × Nat) :=
  (List.range n).filterMap fun r =>
    if cellAt b r c = CellState.queen then some (r, c) else none

/-- Positions marked by the row pass: for every row with more than one queen,
all its queen cells. -/
def rowConflictCells (n : Nat) (b : Board) : List (Nat × Nat) :=
  (List.range n).flatMap fun r =>
    if rowQueenCount n b r > 1 then queenCellsInRow n b r else []

/-- Positions marked by the column pass. -/
def colConflictCells (n : Nat) (b : Board) : List (Nat × Nat) :=
  (List.range n).flatMap fun c =>
    if colQueenCount n b c > 1 then queenCellsInCol n b c else []

/-- Positions marked by the region pass: for every region label with more than
one queen, all its queen cells. -/
def regionConflictCells (n : Nat) (b : Board) (p : Puzzle) : List (Nat × Nat) :=
  (dedupFirst (regionValuesList p n)).flatMap fun v =>
    if (queenCellsOfRegion n b p v).length > 1 then queenCellsOfRegion n b p v else []

/-- Source: `computeConflicts` — diagonal-touch pass, then row, column and
region marking passes. -/
def computeConflicts (b : Board) (p : Puzzle) : Grid Bool :=
  let n := p.size
  markCells (markCells (markCells (diagBase n b) (rowConflictCells n b))
    (colConflictCells n b)) (regionConflictCells n b p)

/-- Region labels of the queen cells, in scan order (the keys/multiplicities of
the `regionCounts` map built by `hasWon`). -/
def queenRegionValues (n : Nat) (b : Board) (p : Puzzle) : List Int :=
  (pairsUpTo n).filterMap fun rc =>
    if cellAt b rc.1 rc.2 = CellState.queen then some (regionAt p rc.1 rc.2) else none

/-- Source: `hasWon` — queen count, one-per-row, one-per-column, one-per-region
(over regions that have a queen), and an all-false conflict grid. -/
def hasWon (b : Board) (p : Puzzle) : Bool :=
  let n := p.size
  decide (countQueens b = n) &&
  ((List.range n).all fun r => decide (rowQueenCount n b r = 1)) &&
  ((List.range n).all fun c => decide (colQueenCount n b c = 1)) &&
  ((dedupFirst (queenRegionValues n b p)).all fun v =>
    decide ((queenRegionValues n b p).count v = 1)) &&
  ((computeConflicts b p).all fun row => row.all fun v => !v)

/-! Characterization of the conflict grid. -/

theorem mem_foldl_dedupIns {α : Type} [DecidableEq α] (l : List α) (acc : List α) (a : α) :
    a ∈ l.foldl (fun acc b => if b ∈ acc then acc else acc ++ [b]) acc ↔
      a ∈ acc ∨ a ∈ l := by
  induction l generalizing acc with
  | nil => simp
  | cons b t ih =>
    simp only [List.foldl_cons, ih, List.mem_cons]
    by_cases hb : b ∈ acc
    · rw [if_pos hb]
      constructor
      · rintro (h | h)
        · exact Or.inl h
        · exact Or.inr (Or.inr h)
      · rintro (h | h | h)
        · exact Or.inl h
        · exact Or.inl (h ▸ hb)
        · exact Or.inr h
    · rw [if_neg hb]
      simp only [List.mem_append, List.mem_singleton]
      tauto

theorem mem_dedupFirst {α : Type} [DecidableEq α] (l : List α) (a : α) :
    a ∈ dedupFirst l ↔ a ∈ l := by
  unfold dedupFirst
  rw [mem_foldl_dedupIns]
  simp

theorem nodup_foldl_dedupIns {α : Type} [DecidableEq α] (l : List α) (acc : List α)
    (h : acc.Nodup) :
    (l.foldl (fun acc b => if b ∈ acc then acc else acc ++ [b]) acc).Nodup := by
  induction l generalizing acc with
  | nil => simpa
  | cons b t ih =>
    simp only [List.foldl_cons]
    by_cases hb : b ∈ acc
    · rw [if_pos hb]; exact ih _ h
    · rw [if_neg hb]
      refine ih _ ?_
      simpa [List.nodup_append] using ⟨h, hb⟩

theorem nodup_dedupFirst {α : Type} [DecidableEq α] (l : List α) :
    (dedupFirst l).Nodup :=
  nodup_foldl_dedupIns l [] List.nodup_nil

theorem mem_pairsUpTo (n r c : Nat) : (r, c) ∈ pairsUpTo n ↔ r < n ∧ c < n := by
  unfold pairsUpTo
  simp only [List.mem_flatMap, List.mem_map, List.mem_range]
  constructor
  · rintro ⟨a, ha, b, hb, h⟩
    cases h
    exact ⟨ha, hb⟩
  · rintro ⟨hr, hc⟩
    exact ⟨r, hr, c, hc, rfl⟩

theorem squareGrid_ofFn {α : Type} (f : Nat → Nat → α) (n : Nat) :
    SquareGrid ((List.range n).map fun r => (List.range n).map fun c => f r c) n := by
  refine ⟨by simp, ?_⟩
  intro row hmem
  simp only [List.mem_map, List.mem_range] at hmem
  obtain ⟨r, _, h⟩ := hmem
  simp [← h]

theorem gridGet_ofFn {α : Type} (d : α) (f : Nat → Nat → α) (n r c : Nat)
    (hr : r < n) (hc : c < n) :
    gridGet d ((List.range n).map fun r => (List.range n).map fun c => f r c) r c = f r c := by
  unfold gridGet
  simp [List.getD_eq_getElem?_getD, List.getElem?_map, List.getElem?_range, hr, hc]

theorem squareGrid_markCells {cf : Grid Bool} {n : Nat} (hcf : SquareGrid cf n)
    (ps : List (Nat × Nat)) : SquareGrid (markCells cf ps) n := by
  induction ps generalizing cf with
  | nil => simpa [markCells]
  | cons q t ih => exact ih (squareGrid_set hcf q.1 q.2 true)

theorem gridGet_markCells {cf : Grid Bool} {n : Nat} (hcf : SquareGrid cf n)
    (ps : List (Nat × Nat)) (r c : Nat) (hr : r < n) (hc : c < n)
    (hps : ∀ q ∈ ps, q.1 < n ∧ q.2 < n) :
    gridGet false (markCells cf ps) r c =
      (gridGet false cf r c || decide ((r, c) ∈ ps)) := by
  induction ps generalizing cf with
  | nil => simp [markCells]
  | cons q t ih =>
    have hq := hps q (List.mem_cons_self _ _)
    have step := gridGet_set false cf hcf q.1 q.2 true r c
    unfold markCells at ih ⊢
    simp only [List.foldl_cons]
    rw [ih (squareGrid_set hcf q.1 q.2 true) (fun x hx => hps x (List.mem_cons_of_mem _ hx)),
      step]
    by_cases hqe : q.1 = r ∧ q.2 = c
    · have : q = (r, c) := by
        obtain ⟨h1, h2⟩ := hqe
        cases q
        simp_all
      rw [if_pos ⟨hqe.1, hqe.2, by omega, by omega⟩]
      simp [this]
    · have hne : (r, c) ≠ q := by
        intro h
        cases q
        simp at h
        exact hqe ⟨h.1.symm, h.2.symm⟩
      rw [if_neg (by tauto)]
      simp [List.mem_cons, hne]

theorem mem_queenCellsInRow (n : Nat) (b : Board) (r : Nat) (x : Nat × Nat) :
    x ∈ queenCellsInRow n b r ↔
      x.1 = r ∧ x.2 < n ∧ cellAt b r x.2 = CellState.queen := by
  unfold queenCellsInRow
  simp only [List.mem_filterMap, List.mem_range]
  constructor
  · rintro ⟨c, hc, h⟩
    by_cases hq : cellAt b r c = CellState.queen
    · rw [if_pos hq] at h
      cases h
      exact ⟨rfl, hc, hq⟩
    · rw [if_neg hq] at h
      cases h
  · rintro ⟨h1, h2, h3⟩
    refine ⟨x.2, h2, ?_⟩
    rw [if_pos h3]
    cases x
    simp_all

theorem mem_queenCellsInCol (n : Nat) (b : Board) (c : Nat) (x : Nat × Nat) :
    x ∈ queenCellsInCol n b c ↔
      x.2 = c ∧ x.1 < n ∧ cellAt b x.1 c = CellState.queen := by
  unfold queenCellsInCol
  simp only [List.mem_filterMap, List.mem_range]
  constructor
  · rintro ⟨a, ha, h⟩
    by_cases hq : cellAt b a c = CellState.queen
    · rw [if_pos hq] at h
      cases h
      exact ⟨rfl, ha, hq⟩
    · rw [if_neg hq] at h
      cases h
  · rintro ⟨h1, h2, h3⟩
    refine ⟨x.1, h2, ?_⟩
    rw [if_pos h3]
    cases x
    simp_all

theorem mem_rowConflictCells (n : Nat) (b : Board) (r c : Nat) :
    (r, c) ∈ rowConflictCells n b ↔
      r < n ∧ c < n ∧ rowQueenCount n b r > 1 ∧ cellAt b r c = CellState.queen := by
  unfold rowConflictCells
  simp only [List.mem_flatMap, List.mem_range]
  constructor
  · rintro ⟨a, ha, h⟩
    by_cases hcnt : rowQueenCount n b a > 1
    · rw [if_pos hcnt] at h
      rw [mem_queenCellsInRow] at h
      obtain ⟨h1, h2, h3⟩ := h
      simp only at h1
      subst h1
      exact ⟨ha, h2, hcnt, h3⟩
    · rw [if_neg hcnt] at h
      cases h
  · rintro ⟨hr, hc, hcnt, hq⟩
    refine ⟨r, hr, ?_⟩
    rw [if_pos hcnt, mem_queenCellsInRow]
    exact ⟨rfl, hc, hq⟩

theorem mem_colConflictCells (n : Nat) (b : Board) (r c : Nat) :
    (r, c) ∈ colConflictCells n b ↔
      r < n ∧ c < n ∧ colQueenCount n b c > 1 ∧ cellAt b r c = CellState.queen := by
  unfold colConflictCells
  simp only [List.mem_flatMap, List.mem_range]
  constructor
  · rintro ⟨a, ha, h⟩
    by_cases hcnt : colQueenCount n b a > 1
    · rw [if_pos hcnt] at h
      rw [mem_queenCellsInCol] at h
      obtain ⟨h1, h2, h3⟩ := h
      simp only at h1
      subst h1
      exact ⟨h2, ha, hcnt, h3⟩
    · rw [if_neg hcnt] at h
      cases h
  · rintro ⟨hr, hc, hcnt, hq⟩
    refine ⟨c, hc, ?_⟩
    rw [if_pos hcnt, mem_queenCellsInCol]
    exact ⟨rfl, hr, hq⟩

theorem mem_queenCellsOfRegion (n : Nat) (b : Board) (p : Puzzle) (v : Int) (x : Nat × Nat) :
    x ∈ queenCellsOfRegion n b p v ↔
      x.1 < n ∧ x.2 < n ∧ regionAt p x.1 x.2 = v ∧ cellAt b x.1 x.2 = CellState.queen := by
  unfold queenCellsOfRegion
  cases x with
  | mk a c =>
    simp only [List.mem_filter, mem_pairsUpTo, decide_eq_true_iff]
    tauto

theorem mem_regionConflictCells (n : Nat) (b : Board) (p : Puzzle) (r c : Nat) :
    (r, c) ∈ regionConflictCells n b p ↔
      r < n ∧ c < n ∧ regionQueenCount n b p (regionAt p r c) > 1 ∧
        cellAt b r c = CellState.queen := by
  unfold regionConflictCells
  simp only [List.mem_flatMap, mem_dedupFirst]
  constructor
  · rintro ⟨v, hv, h⟩
    by_cases hcnt : (queenCellsOfRegion n b p v).length > 1
    · rw [if_pos hcnt] at h
      rw [mem_queenCellsOfRegion] at h
      obtain ⟨h1, h2, h3, h4⟩ := h
      simp only at h1 h2 h3 h4
      refine ⟨h1, h2, ?_, h4⟩
      rw [h3]
      exact hcnt
    · rw [if_neg hcnt] at h
      cases h
  · rintro ⟨hr, hc, hcnt, hq⟩
    refine ⟨regionAt p r c, ?_, ?_⟩
    · unfold regionValuesList
      exact List.mem_map_of_mem _ ((mem_pairsUpTo n r c).mpr ⟨hr, hc⟩)
    · rw [if_pos (show (queenCellsOfRegion n b p (regionAt p r c)).length > 1 from hcnt),
        mem_queenCellsOfRegion]
      exact ⟨hr, hc, rfl, hq⟩

theorem squareGrid_computeConflicts (b : Board) (p : Puzzle) :
    SquareGrid (computeConflicts b p) p.size := by
  unfold computeConflicts
  exact squareGrid_markCells
    (squareGrid_markCells (squareGrid_markCells (squareGrid_ofFn _ _) _) _) _

theorem gridGet_computeConflicts (b : Board) (p : Puzzle) (r c : Nat)
    (hr : r < p.size) (hc : c < p.size) :
    gridGet false (computeConflicts b p) r c = true ↔
      cellAt b r c = CellState.queen ∧
        (rowQueenCount p.size b r > 1 ∨ colQueenCount p.size b c > 1 ∨
          regionQueenCount p.size b p (regionAt p r c) > 1 ∨
          isDiagonalTouch b r c = true) := by
  set n := p.size with hn
  have hbase : SquareGrid (diagBase n b) n := squareGrid_ofFn _ _
  have h1 : SquareGrid (markCells (diagBase n b) (rowConflictCells n b)) n :=
    squareGrid_markCells hbase _
  have h2 : SquareGrid (markCells (markCells (diagBase n b) (rowConflictCells n b))
      (colConflictCells n b)) n := squareGrid_markCells h1 _
  unfold computeConflicts
  rw [← hn]
  rw [gridGet_markCells h2 _ r c hr hc (fun q hq => by
    rw [show q = (q.1, q.2) from rfl, mem_regionConflictCells] at hq
    exact ⟨hq.1, hq.2.1⟩)]
  rw [gridGet_markCells h1 _ r c hr hc (fun q hq => by
    rw [show q = (q.1, q.2) from rfl, mem_colConflictCells] at hq
    exact ⟨hq.1, hq.2.1⟩)]
  rw [gridGet_markCells hbase _ r c hr hc (fun q hq => by
    rw [show q = (q.1, q.2) from rfl, mem_rowConflictCells] at hq
    exact ⟨hq.1, hq.2.1⟩)]
  rw [show diagBase n b =
    ((List.range n).map fun r => (List.range n).map fun c =>
      decide (cellAt b r c = CellState.queen) && isDiagonalTouch b r c) from rfl]
  rw [gridGet_ofFn _ _ n r c hr hc]
  simp only [Bool.or_eq_true, Bool.and_eq_true, decide_eq_true_iff,
    mem_rowConflictCells, mem_colConflictCells, mem_regionConflictCells]
  tauto

/-- Spec-side phrasing of diagonal touching: some in-range cell at offset
(±1, ±1) holds a queen. -/
def DiagAdjacentQueen (b : Board) (n r c : Nat) : Prop :=
  ∃ rr cc, rr < n ∧ cc < n ∧ (rr = r + 1 ∨ rr + 1 = r) ∧ (cc = c + 1 ∨ cc + 1 = c) ∧
    cellAt b rr cc = CellState.queen

theorem isDiagonalTouch_iff (b : Board) {n : Nat} (hb : SquareGrid b n) (r c : Nat) :
    isDiagonalTouch b r c = true ↔ DiagAdjacentQueen b n r c := by
  have hlen : b.length = n := hb.1
  unfold isDiagonalTouch DiagAdjacentQueen
  rw [hlen]
  simp only [diagDirs, List.any_cons, List.any_nil, Bool.or_eq_true, Bool.and_eq_true,
    decide_eq_true_iff, Bool.or_false]
  constructor
  · intro h
    rcases h with h | h | h | h
    · obtain ⟨⟨⟨⟨h1, h2⟩, h3⟩, h4⟩, h5⟩ := h
      exact ⟨((r : Int) + -1).toNat, ((c : Int) + -1).toNat, by omega, by omega,
        Or.inr (by omega), Or.inr (by omega), h5⟩
    · obtain ⟨⟨⟨⟨h1, h2⟩, h3⟩, h4⟩, h5⟩ := h
      exact ⟨((r : Int) + -1).toNat, ((c : Int) + 1).toNat, by omega, by omega,
        Or.inr (by omega), Or.inl (by omega), h5⟩
    · obtain ⟨⟨⟨⟨h1, h2⟩, h3⟩, h4⟩, h5⟩ := h
      exact ⟨((r : Int) + 1).toNat, ((c : Int) + -1).toNat, by omega, by omega,
        Or.inl (by omega), Or.inr (by omega), h5⟩
    · obtain ⟨⟨⟨⟨h1, h2⟩, h3⟩, h4⟩, h5⟩ := h
      exact ⟨((r : Int) + 1).toNat, ((c : Int) + 1).toNat, by omega, by omega,
        Or.inl (by omega), Or.inl (by omega), h5⟩
  · rintro ⟨rr, cc, h1, h2, h3 | h3, h4 | h4, h5⟩
    · refine Or.inr (Or.inr (Or.inr ⟨⟨⟨⟨by omega, by omega⟩, by omega⟩, by omega⟩, ?_⟩))
      have e1 : ((r : Int) + 1).toNat = rr := by omega
      have e2 : ((c : Int) + 1).toNat = cc := by omega
      rw [e1, e2]; exact h5
    · refine Or.inr (Or.inr (Or.inl ⟨⟨⟨⟨by omega, by omega⟩, by omega⟩, by omega⟩, ?_⟩))
      have e1 : ((r : Int) + 1).toNat = rr := by omega
      have e2 : ((c : Int) + -1).toNat = cc := by omega
      rw [e1, e2]; exact h5
    · refine Or.inr (Or.inl ⟨⟨⟨⟨by omega, by omega⟩, by omega⟩, by omega⟩, ?_⟩)
      have e1 : ((r : Int) + -1).toNat = rr := by omega
      have e2 : ((c : Int) + 1).toNat = cc := by omega
      rw [e1, e2]; exact h5
    · refine Or.inl ⟨⟨⟨⟨by omega, by omega⟩, by omega⟩, by omega⟩, ?_⟩
      have e1 : ((r : Int) + -1).toNat = rr := by omega
      have e2 : ((c : Int) + -1).toNat = cc := by omega
      rw [e1, e2]; exact h5

/-- Pointwise reading of the all-false conflict check of `hasWon`. -/
theorem allFalse_iff {cf : Grid Bool} {n : Nat} (hcf : SquareGrid cf n) :
    ((cf.all fun row => row.all fun v => !v) = true) ↔
      ∀ r c, r < n → c < n → gridGet false cf r c = false := by
  obtain ⟨hlen, hrow⟩ := hcf
  simp only [List.all_eq_true, Bool.not_eq_eq_eq_not, Bool.not_true]
  constructor
  · intro h r c hr hc
    have hrl : r < cf.length := by omega
    have hm : cf[r] ∈ cf := List.getElem_mem hrl
    have hcl : c < cf[r].length := by rw [hrow _ hm]; exact hc
    have := h _ hm _ (List.getElem_mem hcl)
    unfold gridGet
    rw [List.getD_eq_getElem _ _ hrl, List.getD_eq_getElem _ _ hcl]
    exact this
  · intro h row hrm v hvm
    obtain ⟨r, hrl, hre⟩ := List.mem_iff_getElem.mp hrm
    obtain ⟨c, hcl, hce⟩ := List.mem_iff_getElem.mp hvm
    have hv := h r c (by omega) (by rw [← hrow _ hrm]; omega)
    unfold gridGet at hv
    rw [List.getD_eq_getElem _ _ hrl] at hv
    rw [hre, List.getD_eq_getElem _ _ hcl, hce] at hv
    exact hv

theorem count_filterMap_ite {α β : Type} [DecidableEq β] (l : List α)
    (q : α → Prop) [DecidablePred q] (g : α → β) (v : β) :
    ((l.filterMap fun a => if q a then some (g a) else none).count v) =
      l.countP fun a => decide (q a) && decide (g a = v) := by
  induction l with
  | nil => simp
  | cons a t ih =>
    rw [List.filterMap_cons, List.countP_cons]
    by_cases hq : q a
    · rw [if_pos hq]
      by_cases hg : g a = v
      · simp [List.count_cons, hg, hq, ih]
      · simp [List.count_cons, hg, hq, ih]
    · rw [if_neg hq]
      simp [hq, ih]

theorem length_filterMap_ite {α β : Type} (l : List α)
    (q : α → Prop) [DecidablePred q] (g : α → β) :
    (l.filterMap fun a => if q a then some (g a) else none).length =
      l.countP fun a => decide (q a) := by
  induction l with
  | nil => simp
  | cons a t ih =>
    rw [List.filterMap_cons, List.countP_cons]
    by_cases hq : q a
    · simp [hq, ih]
    · simp [hq, ih]

theorem mem_queenRegionValues (n : Nat) (b : Board) (p : Puzzle) (v : Int) :
    v ∈ queenRegionValues n b p ↔
      ∃ r c, r < n ∧ c < n ∧ cellAt b r c = CellState.queen ∧ regionAt p r c = v := by
  unfold queenRegionValues
  simp only [List.mem_filterMap]
  constructor
  · rintro ⟨rc, hrc, h⟩
    rw [show rc = (rc.1, rc.2) from rfl, mem_pairsUpTo] at hrc
    by_cases hq : cellAt b rc.1 rc.2 = CellState.queen
    · rw [if_pos hq] at h
      cases h
      exact ⟨rc.1, rc.2, hrc.1, hrc.2, hq, rfl⟩
    · rw [if_neg hq] at h
      cases h
  · rintro ⟨r, c, hr, hc, hq, hv⟩
    refine ⟨(r, c), (mem_pairsUpTo n r c).mpr ⟨hr, hc⟩, ?_⟩
    rw [if_pos hq, hv]

theorem regionQueenCount_eq_count (n : Nat) (b : Board) (p : Puzzle) (v : Int) :
    regionQueenCount n b p v = (queenRegionValues n b p).count v := by
  unfold regionQueenCount queenCellsOfRegion queenRegionValues
  rw [count_filterMap_ite, ← List.countP_eq_length_filter]
  exact List.countP_congr fun rc _ => by
    simp only [Bool.and_eq_true, decide_eq_true_iff]
    tauto

theorem countP_flatten {α : Type} (p : α → Bool) (L : List (List α)) :
    L.flatten.countP p = (L.map fun l => l.countP p).sum := by
  induction L with
  | nil => simp
  | cons l t ih => simp [List.countP_append, ih]

theorem countP_pairsUpTo (n : Nat) (f : Nat × Nat → Bool) :
    (pairsUpTo n).countP f =
      ((List.range n).map fun r => (List.range n).countP fun c => f (r, c)).sum := by
  unfold pairsUpTo
  rw [List.flatMap_def, countP_flatten, List.map_map]
  congr 1
  refine List.map_congr_left fun r _ => ?_
  simp [List.countP_map, Function.comp_def]

theorem length_queenRegionValues (n : Nat) (b : Board) (p : Puzzle)
    (hrows : ∀ r < n, rowQueenCount n b r = 1) :
    (queenRegionValues n b p).length = n := by
  unfold queenRegionValues
  rw [length_filterMap_ite, countP_pairsUpTo]
  have : ((List.range n).map fun r => (List.range n).countP fun c =>
      decide (cellAt b r c = CellState.queen)).sum =
      ((List.range n).map fun _ => 1).sum := by
    congr 1
    refine List.map_congr_left fun r hr => ?_
    exact hrows r (List.mem_range.mp hr)
  rw [this]
  simp [List.map_const]

theorem mem_regionValuesList (p : Puzzle) (n : Nat) (v : Int) :
    v ∈ regionValuesList p n ↔ ∃ r c, r < n ∧ c < n ∧ regionAt p r c = v := by
  unfold regionValuesList
  simp only [List.mem_map]
  constructor
  · rintro ⟨rc, hrc, h⟩
    rw [show rc = (rc.1, rc.2) from rfl, mem_pairsUpTo] at hrc
    exact ⟨rc.1, rc.2, hrc.1, hrc.2, h⟩
  · rintro ⟨r, c, hr, hc, h⟩
    exact ⟨(r, c), (mem_pairsUpTo n r c).mpr ⟨hr, hc⟩, h⟩

/-- Spec-side conflict condition for one cell: a queen whose row, column or
region holds more than one queen, or with a diagonally adjacent queen. -/
def ConflictSpec (b : Board) (p : Puzzle) (n r c : Nat) : Prop :=
  cellAt b r c = CellState.queen ∧
    (rowQueenCount n b r > 1 ∨ colQueenCount n b c > 1 ∨
      regionQueenCount n b p (regionAt p r c) > 1 ∨ DiagAdjacentQueen b n r c)

/-- Spec-side win condition: n queens, exactly one per row, per column and per
region label of the puzzle, and an entirely false conflict grid. -/
def WinSpec (b : Board) (p : Puzzle) (n : Nat) : Prop :=
  countQueens b = n ∧ (∀ r < n, rowQueenCount n b r = 1) ∧
    (∀ c < n, colQueenCount n b c = 1) ∧
    (∀ v ∈ regionValuesList p n, regionQueenCount n b p v = 1) ∧
    (∀ r c, r < n → c < n → gridGet false (computeConflicts b p) r c = false)

theorem hasWon_eq_true_iff_parts (b : Board) (p : Puzzle) :
    hasWon b p = true ↔
      (countQueens b = p.size ∧ (∀ r < p.size, rowQueenCount p.size b r = 1) ∧
        (∀ c < p.size, colQueenCount p.size b c = 1) ∧
        (∀ v ∈ dedupFirst (queenRegionValues p.size b p),
          (queenRegionValues p.size b p).count v = 1) ∧
        ∀ r c, r < p.size → c < p.size →
          gridGet false (computeConflicts b p) r c = false) := by
  unfold hasWon
  rw [Bool.and_eq_true, Bool.and_eq_true, Bool.and_eq_true, Bool.and_eq_true,
    allFalse_iff (squareGrid_computeConflicts b p)]
  simp only [List.all_eq_true, List.mem_range, decide_eq_true_iff]
  tauto

/-- C2: for a board and puzzle of matching n-by-n dimensions, `computeConflicts`
returns an n-by-n boolean grid, and cell (r, c) is flagged iff it holds a queen
and either its row, its column or its region label has more than one queen, or
some cell at offset (±1, ±1) holds a queen; cells in any other state are never
flagged (the flag implies the queen state) and only queen cells enter the
counts (the counts are counts of queen cells by definition). -/
theorem c2_computeConflicts_spec (b : Board) (p : Puzzle) (n : Nat)
    (hm : Matching b p n) :
    SquareGrid (computeConflicts b p) n ∧
    ∀ r c, r < n → c < n →
      (gridGet false (computeConflicts b p) r c = true ↔ ConflictSpec b p n r c) := by
  obtain ⟨hs, hb, hp⟩ := hm
  subst hs
  refine ⟨squareGrid_computeConflicts b p, ?_⟩
  intro r c hr hc
  rw [gridGet_computeConflicts b p r c hr hc]
  unfold ConflictSpec
  rw [isDiagonalTouch_iff b hb r c]

/-- C1: for a board and puzzle of matching n-by-n dimensions whose region grid
holds exactly n distinct labels, `hasWon` is true iff the queen count is n,
every row, column and region label holds exactly one queen, and the conflict
grid is entirely false. -/
theorem c1_hasWon_iff (b : Board) (p : Puzzle) (n : Nat) (hm : Matching b p n)
    (hlab : (dedupFirst (regionValuesList p n)).length = n) :
    hasWon b p = true ↔ WinSpec b p n := by
  obtain ⟨hs, hb, hp⟩ := hm
  subst hs
  rw [hasWon_eq_true_iff_parts]
  unfold WinSpec
  constructor
  · rintro ⟨hcnt, hrows, hcols, hreg, hconf⟩
    refine ⟨hcnt, hrows, hcols, ?_, hconf⟩
    intro v hv
    have hnd : (queenRegionValues p.size b p).Nodup :=
      List.nodup_iff_count_eq_one.mpr fun a ha =>
        hreg a ((mem_dedupFirst _ _).mpr ha)
    have hlen : (queenRegionValues p.size b p).length = p.size :=
      length_queenRegionValues _ _ _ hrows
    have hsub : (queenRegionValues p.size b p).toFinset ⊆
        (regionValuesList p p.size).toFinset := by
      intro a ha
      rw [List.mem_toFinset] at ha ⊢
      obtain ⟨r, c, hr, hc, _, hv'⟩ := (mem_queenRegionValues _ _ _ _).mp ha
      exact (mem_regionValuesList _ _ _).mpr ⟨r, c, hr, hc, hv'⟩
    have hDeq : (regionValuesList p p.size).toFinset =
        (dedupFirst (regionValuesList p p.size)).toFinset :=
      Finset.ext fun a => by simp [List.mem_toFinset, mem_dedupFirst]
    have hD : (regionValuesList p p.size).toFinset.card = p.size := by
      rw [hDeq, List.toFinset_card_of_nodup (nodup_dedupFirst _)]
      exact hlab
    have hQ : (queenRegionValues p.size b p).toFinset.card = p.size := by
      rw [List.toFinset_card_of_nodup hnd, hlen]
    have heq : (queenRegionValues p.size b p).toFinset =
        (regionValuesList p p.size).toFinset :=
      Finset.eq_of_subset_of_card_le hsub (by omega)
    have hvq : v ∈ queenRegionValues p.size b p := by
      have h1 : v ∈ (regionValuesList p p.size).toFinset := List.mem_toFinset.mpr hv
      rw [← heq] at h1
      exact List.mem_toFinset.mp h1
    rw [regionQueenCount_eq_count]
    exact List.count_eq_one_of_mem hnd hvq
  · rintro ⟨hcnt, hrows, hcols, hreg, hconf⟩
    refine ⟨hcnt, hrows, hcols, ?_, hconf⟩
    intro a ha
    rw [← regionQueenCount_eq_count]
    obtain ⟨r, c, hr, hc, _, hv'⟩ :=
      (mem_queenRegionValues _ _ _ _).mp ((mem_dedupFirst _ _).mp ha)
    exact hreg a ((mem_regionValuesList _ _ _).mpr ⟨r, c, hr, hc, hv'⟩)

/-- The spec's concrete 5x5 sample puzzle (also `puzzle-001` of the catalog). -/
def examplePuzzle5 : Puzzle :=
  { size := 5
    regions := [[0, 0, 1, 1, 1], [0, 0, 1, 1, 2], [3, 3, 3, 2, 2],
      [3, 4, 4, 4, 2], [3, 3, 4, 4, 4]] }

/-- A winning placement for `examplePuzzle5` (queens in columns 0,3,1,4,2). -/
def exampleWinBoard5 : Board :=
  [[.queen, .empty, .empty, .empty, .empty],
   [.empty, .empty, .empty, .queen, .empty],
   [.empty, .queen, .empty, .empty, .empty],
   [.empty, .empty, .empty, .empty, .queen],
   [.empty, .empty, .queen, .empty, .empty]]

/-- A board with two queens in row 0 (a conflicting configuration). -/
def exampleRowConflictBoard5 : Board :=
  [[.queen, .empty, .queen, .empty, .empty],
   [.empty, .empty, .empty, .empty, .empty],
   [.empty, .empty, .empty, .empty, .empty],
   [.empty, .empty, .empty, .empty, .empty],
   [.empty, .empty, .empty, .empty, .empty]]

/-- Witness for C1 at a concrete winning board. -/
theorem c1_hasWon_iff_witness :
    (Matching exampleWinBoard5 examplePuzzle5 5 ∧
      (dedupFirst (regionValuesList examplePuzzle5 5)).length = 5) ∧
    (hasWon exampleWinBoard5 examplePuzzle5 = true ↔
      WinSpec exampleWinBoard5 examplePuzzle5 5) :=
  ⟨⟨by decide, by decide⟩, c1_hasWon_iff _ _ 5 (by decide) (by decide)⟩

/-- Witness for C2 at a concrete conflicting board. -/
theorem c2_computeConflicts_spec_witness :
    Matching exampleRowConflictBoard5 examplePuzzle5 5 ∧
    (SquareGrid (computeConflicts exampleRowConflictBoard5 examplePuzzle5) 5 ∧
      ∀ r c, r < 5 → c < 5 →
        (gridGet false (computeConflicts exampleRowConflictBoard5 examplePuzzle5) r c = true ↔
          ConflictSpec exampleRowConflictBoard5 examplePuzzle5 5 r c)) :=
  ⟨by decide, c2_computeConflicts_spec _ _ 5 (by decide)⟩

/-! The solvability oracle (`logic.ts`, lines 491-563). -/

/-- Source: `createEmptyBoard`. -/
def createEmptyBoard (n : Nat) : Board :=
  List.replicate n (List.replicate n CellState.empty)

/-- Source: `canPlaceQueen` — column check over rows above, diagonal check
(both the full shared-diagonal test and the adjacent-diagonal test), and
region check over rows above. -/
def canPlaceQueen (b : Board) (p : Puzzle) (row col : Nat) : Bool :=
  let n := p.size
  ((List.range row).all fun r => !decide (cellAt b r col = CellState.queen)) &&
  ((List.range row).all fun r => (List.range n).all fun c =>
    !(decide (cellAt b r c = CellState.queen) &&
      (decide (((r : Int) - row).natAbs = ((c : Int) - col).natAbs) ||
        decide (((r : Int) - row).natAbs = 1 ∧ ((c : Int) - col).natAbs = 1)))) &&
  ((List.range row).all fun r => (List.range n).all fun c =>
    !(decide (cellAt b r c = CellState.queen) &&
      decide (regionAt p r c = regionAt p row col)))

/-- Source: `solvePuzzleRecursive`, embedded over the number of remaining rows:
`solveFrom p k b` is the call at `row = p.size - k`, so `k = 0` is the base
case `row == n`; the in-place place/backtrack mutation becomes a functional
update per tried column. -/
def solveFrom (p : Puzzle) : Nat → Board → Bool
  | 0, b => hasWon b p
  | k + 1, b => (List.range p.size).any fun col =>
      canPlaceQueen b p (p.size - (k + 1)) col &&
        solveFrom p k (gridSet b (p.size - (k + 1)) col CellState.queen)

/-- Source: `isPuzzleSolvable` — backtracking from row 0 on an empty board. -/
def isPuzzleSolvable (p : Puzzle) : Bool :=
  solveFrom p p.size (createEmptyBoard p.size)

theorem solveFrom_sound (p : Puzzle) (k : Nat) :
    ∀ b, solveFrom p k b = true → ∃ b2, hasWon b2 p = true := by
  induction k with
  | zero => exact fun b h => ⟨b, h⟩
  | succ k ih =>
    intro b h
    rw [solveFrom, List.any_eq_true] at h
    obtain ⟨col, _, hand⟩ := h
    rw [Bool.and_eq_true] at hand
    exact ih _ hand.2

/-- C4: soundness of the solvability oracle — its base case at row n is
exactly `hasWon` on the assembled board, and whenever `isPuzzleSolvable`
returns true some full board satisfies `hasWon`. -/
theorem c4_isPuzzleSolvable_sound (p : Puzzle) :
    (∀ b, solveFrom p 0 b = hasWon b p) ∧
    (isPuzzleSolvable p = true → ∃ b, hasWon b p = true) :=
  ⟨fun _ => rfl, fun h => solveFrom_sound p p.size _ h⟩

/-- Witness for C4: the spec's sample 5x5 puzzle is reported solvable, and the
theorem then yields a winning board. -/
theorem c4_isPuzzleSolvable_sound_witness :
    isPuzzleSolvable examplePuzzle5 = true ∧
      ∃ b, hasWon b examplePuzzle5 = true := by
  have h : isPuzzleSolvable examplePuzzle5 = true := by decide
  exact ⟨h, (c4_isPuzzleSolvable_sound examplePuzzle5).2 h⟩

/-! C3: the oracle's legality check. -/

/-- Board for the C3 counterexample: a single queen at (0, 0). -/
def cexBoard3 : Board :=
  [[.queen, .empty, .empty],
   [.empty, .empty, .empty],
   [.empty, .empty, .empty]]

/-- Puzzle for the C3 counterexample: cell (2, 2) is in a different region
from (0, 0) and every cell of rows 0 and 1. -/
def cexPuzzle3 : Puzzle :=
  { size := 3, regions := [[0, 1, 2], [1, 2, 0], [2, 0, 1]] }

/-- C3 counterexample: placing at (2, 2) with the only prior queen at (0, 0)
satisfies all three conditions of the claim — the column is free, no prior
queen is immediately diagonally adjacent, and no prior queen shares the
region label — yet `canPlaceQueen` rejects the placement, because the code
also rejects any shared diagonal line (here |Δrow| = |Δcol| = 2). -/
theorem c3_canPlaceQueen_counterexample :
    canPlaceQueen cexBoard3 cexPuzzle3 2 2 = false ∧
    (∀ r < 2, cellAt cexBoard3 r 2 ≠ CellState.queen) ∧
    (∀ r, r < 2 → ∀ c, c < 3 → cellAt cexBoard3 r c = CellState.queen →
      ¬(((r : Int) - 2).natAbs = 1 ∧ ((c : Int) - 2).natAbs = 1)) ∧
    (∀ r, r < 2 → ∀ c, c < 3 → cellAt cexBoard3 r c = CellState.queen →
      regionAt cexPuzzle3 r c ≠ regionAt cexPuzzle3 2 2) := by
  decide

/-- C3 as amended: `canPlaceQueen` accepts a placement iff the column above is
queen-free, no prior queen (in rows above, any column of the puzzle) lies on a
shared diagonal line (|Δrow| = |Δcol| — which subsumes immediate diagonal
adjacency), and no prior queen shares the region label. -/
theorem c3_canPlaceQueen_iff (b : Board) (p : Puzzle) (row col : Nat) :
    canPlaceQueen b p row col = true ↔
      ((∀ r < row, cellAt b r col ≠ CellState.queen) ∧
        (∀ r, r < row → ∀ c, c < p.size → cellAt b r c = CellState.queen →
          ((r : Int) - row).natAbs ≠ ((c : Int) - col).natAbs) ∧
        (∀ r, r < row → ∀ c, c < p.size → cellAt b r c = CellState.queen →
          regionAt p r c ≠ regionAt p row col)) := by
  unfold canPlaceQueen
  simp only [Bool.and_eq_true, List.all_eq_true, List.mem_range,
    Bool.not_eq_true', Bool.and_eq_false_iff, Bool.or_eq_false_iff,
    decide_eq_false_iff_not, Bool.not_eq_true]
  constructor
  · rintro ⟨⟨h1, h2⟩, h3⟩
    refine ⟨fun r hr => (h1 r hr), ?_, ?_⟩
    · intro r hr c hc hq
      rcases h2 r hr c hc with h | h
      · exact absurd hq h
      · exact h.1
    · intro r hr c hc hq
      rcases h3 r hr c hc with h | h
      · exact absurd hq h
      · exact h
  · rintro ⟨h1, h2, h3⟩
    refine ⟨⟨fun r hr => h1 r hr, ?_⟩, ?_⟩
    · intro r hr c hc
      by_cases hq : cellAt b r c = CellState.queen
      · refine Or.inr ⟨h2 r hr c hc hq, ?_⟩
        intro ⟨ha, hb2⟩
        exact h2 r hr c hc hq (ha.trans hb2.symm)
      · exact Or.inl hq
    · intro r hr c hc
      by_cases hq : cellAt b r c = CellState.queen
      · exact Or.inr (h3 r hr c hc hq)
      · exact Or.inl hq

/-! The forbidden-position overlay (`logic.ts`, lines 331-379). -/

/-- One elementary write of `calculateForbiddenPositions`: mark a cell
forbidden only when it is currently empty. -/
def setForbiddenIfEmpty (g : Board) (r c : Nat) : Board :=
  if cellAt g r c = CellState.empty then gridSet g r c CellState.forbidden else g

/-- The queen positions of the board in scan order. -/
def queensList (n : Nat) (b : Board) : List (Nat × Nat) :=
  (pairsUpTo n).filter fun rc => decide (cellAt b rc.1 rc.2 = CellState.queen)

/-- The marking work of `calculateForbiddenPositions` for one queen: its row
and column, the four diagonal neighbours, and every cell of its region. -/
def markQueenForbidden (p : Puzzle) (g : Board) (q : Nat × Nat) : Board :=
  let n := p.size
  let g1 := (List.range n).foldl (fun g i =>
    let g' := if i ≠ q.2 then setForbiddenIfEmpty g q.1 i else g
    if i ≠ q.1 then setForbiddenIfEmpty g' i q.2 else g') g
  let g2 := diagDirs.foldl (fun g dd =>
    let rr : Int := (q.1 : Int) + dd.1
    let cc : Int := (q.2 : Int) + dd.2
    if 0 ≤ rr ∧ rr < (n : Int) ∧ 0 ≤ cc ∧ cc < (n : Int) then
      setForbiddenIfEmpty g rr.toNat cc.toNat
    else g) g1
  (pairsUpTo n).foldl (fun g rc =>
    if regionAt p rc.1 rc.2 = regionAt p q.1 q.2 then
      setForbiddenIfEmpty g rc.1 rc.2
    else g) g2

/-- Source: `calculateForbiddenPositions` — start from a copy of the board and
run the marking for every queen in scan order. -/
def calculateForbiddenPositions (b : Board) (p : Puzzle) : Board :=
  (queensList p.size b).foldl (markQueenForbidden p) b

/-- The frame invariant of the overlay: each cell is either unchanged, or was
empty and is now forbidden. -/
def FrameInv (b g : Board) : Prop :=
  ∀ r c, cellAt g r c = cellAt b r c ∨
    (cellAt b r c = CellState.empty ∧ cellAt g r c = CellState.forbidden)

theorem preserve_setForbiddenIfEmpty {b : Board} {n : Nat} (r c : Nat) {g : Board}
    (h : SquareGrid g n ∧ FrameInv b g) :
    SquareGrid (setForbiddenIfEmpty g r c) n ∧ FrameInv b (setForbiddenIfEmpty g r c) := by
  obtain ⟨hsq, hinv⟩ := h
  unfold setForbiddenIfEmpty
  by_cases he : cellAt g r c = CellState.empty
  · rw [if_pos he]
    refine ⟨squareGrid_set hsq r c _, ?_⟩
    intro r' c'
    have hget := gridGet_set CellState.empty g hsq r c CellState.forbidden r' c'
    rw [show cellAt (gridSet g r c CellState.forbidden) r' c' =
      gridGet CellState.empty (gridSet g r c CellState.forbidden) r' c' from rfl, hget]
    by_cases hcase : r = r' ∧ c = c' ∧ r < n ∧ c < n
    · rw [if_pos hcase]
      obtain ⟨h1, h2, _, _⟩ := hcase
      subst h1; subst h2
      rcases hinv r c with h | h
      · exact Or.inr ⟨h ▸ he, rfl⟩
      · exact Or.inr ⟨h.1, rfl⟩
    · rw [if_neg hcase]
      exact hinv r' c'
  · rw [if_neg he]
    exact ⟨hsq, hinv⟩

theorem preserve_foldl {α β : Type} (P : β → Prop) (step : β → α → β)
    (hstep : ∀ g a, P g → P (step g a)) :
    ∀ (l : List α) (g : β), P g → P (l.foldl step g) := by
  intro l
  induction l with
  | nil => exact fun g h => h
  | cons a t ih => exact fun g h => ih _ (hstep g a h)

theorem preserve_markQueenForbidden {b : Board} {n : Nat} (p : Puzzle)
    (q : Nat × Nat) {g : Board}
    (h : SquareGrid g n ∧ FrameInv b g) :
    SquareGrid (markQueenForbidden p g q) n ∧ FrameInv b (markQueenForbidden p g q) := by
  unfold markQueenForbidden
  set P := fun g => SquareGrid g n ∧ FrameInv b g with hP
  refine preserve_foldl P _ ?_ _ _ (preserve_foldl P _ ?_ _ _ (preserve_foldl P _ ?_ _ _ h))
  · intro g rc hg
    by_cases hr : regionAt p rc.1 rc.2 = regionAt p q.1 q.2
    · rw [if_pos hr]
      exact preserve_setForbiddenIfEmpty _ _ hg
    · rw [if_neg hr]
      exact hg
  · intro g dd hg
    dsimp only
    by_cases hb2 : 0 ≤ (q.1 : Int) + dd.1 ∧ (q.1 : Int) + dd.1 < (p.size : Int) ∧
        0 ≤ (q.2 : Int) + dd.2 ∧ (q.2 : Int) + dd.2 < (p.size : Int)
    · rw [if_pos hb2]
      exact preserve_setForbiddenIfEmpty _ _ hg
    · rw [if_neg hb2]
      exact hg
  · intro g i hg
    dsimp only
    have hg1 : P (if i ≠ q.2 then setForbiddenIfEmpty g q.1 i else g) := by
      by_cases h1 : i ≠ q.2
      · rw [if_pos h1]
        exact preserve_setForbiddenIfEmpty _ _ hg
      · rw [if_neg h1]
        exact hg
    by_cases h2 : i ≠ q.1
    · rw [if_pos h2]
      exact preserve_setForbiddenIfEmpty _ _ hg1
    · rw [if_neg h2]
      exact hg1

theorem calculateForbiddenPositions_frame (b : Board) (p : Puzzle) (n : Nat)
    (hm : Matching b p n) :
    SquareGrid (calculateForbiddenPositions b p) n ∧
      FrameInv b (calculateForbiddenPositions b p) := by
  obtain ⟨hs, hb, _⟩ := hm
  unfold calculateForbiddenPositions
  exact preserve_foldl (fun g => SquareGrid g n ∧ FrameInv b g) _
    (fun g q hg => preserve_markQueenForbidden p q hg) _ b
    ⟨hb, fun _ _ => Or.inl rfl⟩

/-- C8: frame property of the forbidden-position overlay — the returned grid
is n-by-n, differs from the input board only at cells whose input state is
empty, every changed cell is output as forbidden, and every cell whose input
state is x, dot, queen or forbidden keeps its input state. -/
theorem c8_calculateForbiddenPositions_frame (b : Board) (p : Puzzle) (n : Nat)
    (hm : Matching b p n) :
    SquareGrid (calculateForbiddenPositions b p) n ∧
    ∀ r c,
      (cellAt b r c ≠ CellState.empty →
        cellAt (calculateForbiddenPositions b p) r c = cellAt b r c) ∧
      (cellAt (calculateForbiddenPositions b p) r c ≠ cellAt b r c →
        cellAt b r c = CellState.empty ∧
          cellAt (calculateForbiddenPositions b p) r c = CellState.forbidden) := by
  obtain ⟨hsq, hinv⟩ := calculateForbiddenPositions_frame b p n hm
  refine ⟨hsq, fun r c => ⟨?_, ?_⟩⟩
  · intro hne
    rcases hinv r c with h | h
    · exact h
    · exact absurd h.1 hne
  · intro hne
    rcases hinv r c with h | h
    · exact absurd h hne
    · exact h

/-- Witness for C8. -/
theorem c8_calculateForbiddenPositions_frame_witness :
    Matching exampleRowConflictBoard5 examplePuzzle5 5 ∧
    (SquareGrid (calculateForbiddenPositions exampleRowConflictBoard5 examplePuzzle5) 5 ∧
    ∀ r c,
      (cellAt exampleRowConflictBoard5 r c ≠ CellState.empty →
        cellAt (calculateForbiddenPositions exampleRowConflictBoard5 examplePuzzle5) r c =
          cellAt exampleRowConflictBoard5 r c) ∧
      (cellAt (calculateForbiddenPositions exampleRowConflictBoard5 examplePuzzle5) r c ≠
          cellAt exampleRowConflictBoard5 r c →
        cellAt exampleRowConflictBoard5 r c = CellState.empty ∧
          cellAt (calculateForbiddenPositions exampleRowConflictBoard5 examplePuzzle5) r c =
            CellState.forbidden)) :=
  ⟨by decide, c8_calculateForbiddenPositions_frame _ _ 5 (by decide)⟩

/-! The board-mutation handlers of `GameScreen.tsx` (lines 211-265). -/

/-- The tap cycle of `GameScreen.tap`: empty to x, x to queen, queen to empty,
and any other state resets to empty. -/
def cycleState : CellState → CellState
  | CellState.empty => CellState.xmark
  | CellState.xmark => CellState.queen
  | CellState.queen => CellState.empty
  | _ => CellState.empty

/-- Source: `tap` — a no-op when the derived overlay marks the cell forbidden,
otherwise the tap cycle applied to the cell. -/
def tapCell (b : Board) (p : Puzzle) (r c : Nat) : Board :=
  if cellAt (calculateForbiddenPositions b p) r c = CellState.forbidden then b
  else gridSet b r c (cycleState (cellAt b r c))

/-- Source: `long` — a no-op when the overlay marks the cell forbidden,
otherwise toggles dot and empty and leaves every other state unchanged. -/
def longPressCell (b : Board) (p : Puzzle) (r c : Nat) : Board :=
  if cellAt (calculateForbiddenPositions b p) r c = CellState.forbidden then b
  else if cellAt b r c = CellState.dot then gridSet b r c CellState.empty
  else if cellAt b r c = CellState.empty then gridSet b r c CellState.dot
  else b

/-- C9: tap/long-press transition contract — on a cell the overlay marks
forbidden both gestures leave the board unchanged; otherwise a tap changes
only that cell, by the cycle empty to x to queen to empty with every other
state reset to empty, and a long press changes only that cell, toggling empty
and dot and leaving every other state unchanged. -/
theorem c9_tap_long_contract (b : Board) (p : Puzzle) (n : Nat) (hm : Matching b p n)
    (r c : Nat) (hr : r < n) (hc : c < n) :
    (cellAt (calculateForbiddenPositions b p) r c = CellState.forbidden →
      tapCell b p r c = b ∧ longPressCell b p r c = b) ∧
    (cellAt (calculateForbiddenPositions b p) r c ≠ CellState.forbidden →
      ((∀ r' c', ¬(r' = r ∧ c' = c) → cellAt (tapCell b p r c) r' c' = cellAt b r' c') ∧
        cellAt (tapCell b p r c) r c = cycleState (cellAt b r c) ∧
        cycleState CellState.empty = CellState.xmark ∧
        cycleState CellState.xmark = CellState.queen ∧
        cycleState CellState.queen = CellState.empty ∧
        cycleState CellState.dot = CellState.empty ∧
        cycleState CellState.forbidden = CellState.empty) ∧
      ((∀ r' c', ¬(r' = r ∧ c' = c) →
          cellAt (longPressCell b p r c) r' c' = cellAt b r' c') ∧
        (cellAt b r c = CellState.empty →
          cellAt (longPressCell b p r c) r c = CellState.dot) ∧
        (cellAt b r c = CellState.dot →
          cellAt (longPressCell b p r c) r c = CellState.empty) ∧
        (cellAt b r c ≠ CellState.empty → cellAt b r c ≠ CellState.dot →
          longPressCell b p r c = b))) := by
  obtain ⟨hs, hb, hp⟩ := hm
  subst hs
  constructor
  · intro hf
    constructor
    · unfold tapCell
      rw [if_pos hf]
    · unfold longPressCell
      rw [if_pos hf]
  · intro hf
    have htap : tapCell b p r c = gridSet b r c (cycleState (cellAt b r c)) := by
      unfold tapCell
      rw [if_neg hf]
    refine ⟨⟨?_, ?_, rfl, rfl, rfl, rfl, rfl⟩, ?_, ?_, ?_, ?_⟩
    · intro r' c' hne
      rw [htap]
      show gridGet CellState.empty _ r' c' = gridGet CellState.empty b r' c'
      rw [gridGet_set CellState.empty b hb r c _ r' c', if_neg (by tauto)]
    · rw [htap]
      show gridGet CellState.empty _ r c = cycleState (cellAt b r c)
      rw [gridGet_set CellState.empty b hb r c _ r c, if_pos ⟨rfl, rfl, hr, hc⟩]
    · intro r' c' hne
      unfold longPressCell
      rw [if_neg hf]
      by_cases hd : cellAt b r c = CellState.dot
      · rw [if_pos hd]
        show gridGet CellState.empty _ r' c' = gridGet CellState.empty b r' c'
        rw [gridGet_set CellState.empty b hb r c _ r' c', if_neg (by tauto)]
      · rw [if_neg hd]
        by_cases he : cellAt b r c = CellState.empty
        · rw [if_pos he]
          show gridGet CellState.empty _ r' c' = gridGet CellState.empty b r' c'
          rw [gridGet_set CellState.empty b hb r c _ r' c', if_neg (by tauto)]
        · rw [if_neg he]
    · intro he
      unfold longPressCell
      rw [if_neg hf, if_neg (by rw [he]; intro h; cases h), if_pos he]
      show gridGet CellState.empty _ r c = CellState.dot
      rw [gridGet_set CellState.empty b hb r c _ r c, if_pos ⟨rfl, rfl, hr, hc⟩]
    · intro hd
      unfold longPressCell
      rw [if_neg hf, if_pos hd]
      show gridGet CellState.empty _ r c = CellState.empty
      rw [gridGet_set CellState.empty b hb r c _ r c, if_pos ⟨rfl, rfl, hr, hc⟩]
    · intro he hd
      unfold longPressCell
      rw [if_neg hf, if_neg hd, if_neg he]

/-- Witness for C9. -/
theorem c9_tap_long_contract_witness :
    (Matching exampleRowConflictBoard5 examplePuzzle5 5 ∧ 1 < 5 ∧ 1 < 5) ∧
    ((cellAt (calculateForbiddenPositions exampleRowConflictBoard5 examplePuzzle5) 1 1 =
        CellState.forbidden →
      tapCell exampleRowConflictBoard5 examplePuzzle5 1 1 = exampleRowConflictBoard5 ∧
      longPressCell exampleRowConflictBoard5 examplePuzzle5 1 1 = exampleRowConflictBoard5) ∧
    (cellAt (calculateForbiddenPositions exampleRowConflictBoard5 examplePuzzle5) 1 1 ≠
        CellState.forbidden →
      ((∀ r' c', ¬(r' = 1 ∧ c' = 1) →
          cellAt (tapCell exampleRowConflictBoard5 examplePuzzle5 1 1) r' c' =
            cellAt exampleRowConflictBoard5 r' c') ∧
        cellAt (tapCell exampleRowConflictBoard5 examplePuzzle5 1 1) 1 1 =
          cycleState (cellAt exampleRowConflictBoard5 1 1) ∧
        cycleState CellState.empty = CellState.xmark ∧
        cycleState CellState.xmark = CellState.queen ∧
        cycleState CellState.queen = CellState.empty ∧
        cycleState CellState.dot = CellState.empty ∧
        cycleState CellState.forbidden = CellState.empty) ∧
      ((∀ r' c', ¬(r' = 1 ∧ c' = 1) →
          cellAt (longPressCell exampleRowConflictBoard5 examplePuzzle5 1 1) r' c' =
            cellAt exampleRowConflictBoard5 r' c') ∧
        (cellAt exampleRowConflictBoard5 1 1 = CellState.empty →
          cellAt (longPressCell exampleRowConflictBoard5 examplePuzzle5 1 1) 1 1 =
            CellState.dot) ∧
        (cellAt exampleRowConflictBoard5 1 1 = CellState.dot →
          cellAt (longPressCell exampleRowConflictBoard5 examplePuzzle5 1 1) 1 1 =
            CellState.empty) ∧
        (cellAt exampleRowConflictBoard5 1 1 ≠ CellState.empty →
          cellAt exampleRowConflictBoard5 1 1 ≠ CellState.dot →
          longPressCell exampleRowConflictBoard5 examplePuzzle5 1 1 =
            exampleRowConflictBoard5)))) :=
  ⟨⟨by decide, by decide, by decide⟩,
    c9_tap_long_contract _ _ 5 (by decide) 1 1 (by decide) (by decide)⟩

/-! The `ConnectivityValidator` module (validate / repair of region
connectivity). Source file: the unnamed module defining
`ConnectivityValidator` (`validateConnectivity`, `isRegionConnected`,
`fixConnectivity`, `connectRegion`, `getConnectedComponent`,
`connectComponents`, `findShortestPath`). The JS BFS queues become
fuel-indexed recursion; a fuel of `size * size` covers every possible queue
entry, because each cell is enqueued at most once (it is marked visited when
enqueued), so the fuel is never exhausted before the queue empties. -/

/-- The four orthogonal offsets. -/
def orthoDirs : List (Int × Int) := [(-1, 0), (1, 0), (0, -1), (0, 1)]

/-- An all-false size-by-size visited grid. -/
def falseGrid (n : Nat) : Grid Bool :=
  List.replicate n (List.replicate n false)

/-- The cells holding `regionId`, in scan order (the `regionCells` collection
shared by the validator's methods). -/
def regionCellsOf (g : Grid Int) (regionId : Int) (size : Nat) : List (Nat × Nat) :=
  (pairsUpTo size).filter fun rc => decide (gridGet 0 g rc.1 rc.2 = regionId)

/-- BFS visit counter of `isRegionConnected`: dequeue, then enqueue (and count)
each unvisited in-range orthogonal neighbour holding `regionId`. -/
def bfsVisitCount (g : Grid Int) (regionId : Int) (size : Nat) :
    Nat → Grid Bool → List (Nat × Nat) → Nat → Nat
  | 0, _, _, cnt => cnt
  | _ + 1, _, [], cnt => cnt
  | fuel + 1, vis, rc :: rest, cnt =>
    let st := orthoDirs.foldl (fun (st : Grid Bool × List (Nat × Nat) × Nat) dd =>
      let rr : Int := (rc.1 : Int) + dd.1
      let cc : Int := (rc.2 : Int) + dd.2
      if 0 ≤ rr ∧ rr < (size : Int) ∧ 0 ≤ cc ∧ cc < (size : Int) ∧
          gridGet false st.1 rr.toNat cc.toNat = false ∧
          gridGet 0 g rr.toNat cc.toNat = regionId then
        (gridSet st.1 rr.toNat cc.toNat true, st.2.1 ++ [(rr.toNat, cc.toNat)], st.2.2 + 1)
      else st) (vis, rest, cnt)
    bfsVisitCount g regionId size fuel st.1 st.2.1 st.2.2

/-- Source: `isRegionConnected` — empty and singleton regions count as
connected; otherwise flood-fill from the first cell and compare the visited
count with the region's cell count. -/
def isRegionConnected (g : Grid Int) (regionId : Int) (size : Nat) : Bool :=
  let regionCells := regionCellsOf g regionId size
  match regionCells with
  | [] => true
  | first :: rest =>
    if rest.isEmpty then true
    else
      decide (bfsVisitCount g regionId size (size * size)
        (gridSet (falseGrid size) first.1 first.2 true) [first] 1 = regionCells.length)

/-- Source: `ConnectivityValidator.validateConnectivity` — all labels of the
grid are connected. -/
def validateConnectivity (p : Puzzle) : Bool :=
  (dedupFirst (regionValuesList p p.size)).all fun v =>
    isRegionConnected p.regions v p.size

/-- BFS of `getConnectedComponent`: like the visit counter, but collects the
dequeued cells in dequeue order and returns the updated visited grid. -/
def bfsComponent (g : Grid Int) (regionId : Int) (size : Nat) :
    Nat → Grid Bool → List (Nat × Nat) → List (Nat × Nat) →
      Grid Bool × List (Nat × Nat)
  | 0, vis, _, comp => (vis, comp)
  | _ + 1, vis, [], comp => (vis, comp)
  | fuel + 1, vis, rc :: rest, comp =>
    let st := orthoDirs.foldl (fun (st : Grid Bool × List (Nat × Nat)) dd =>
      let rr : Int := (rc.1 : Int) + dd.1
      let cc : Int := (rc.2 : Int) + dd.2
      if 0 ≤ rr ∧ rr < (size : Int) ∧ 0 ≤ cc ∧ cc < (size : Int) ∧
          gridGet false st.1 rr.toNat cc.toNat = false ∧
          gridGet 0 g rr.toNat cc.toNat = regionId then
        (gridSet st.1 rr.toNat cc.toNat true, st.2 ++ [(rr.toNat, cc.toNat)])
      else st) (vis, rest)
    bfsComponent g regionId size fuel st.1 st.2 (comp ++ [rc])

/-- The component decomposition of `connectRegion`: walk the region cells with
one shared visited grid, starting a `getConnectedComponent` flood fill at each
not-yet-visited cell. -/
def collectComponents (g : Grid Int) (regionId : Int) (size : Nat)
    (regionCells : List (Nat × Nat)) : List (List (Nat × Nat)) :=
  (regionCells.foldl (fun (st : Grid Bool × List (List (Nat × Nat))) cell =>
    if gridGet false st.1 cell.1 cell.2 = true then st
    else
      let r := bfsComponent g regionId size (size * size)
        (gridSet st.1 cell.1 cell.2 true) [cell] []
      (r.1, st.2 ++ [r.2])) (falseGrid size, [])).2

/-- Source: `findShortestPath` — the stepped path from `start` to `fin`,
horizontal moves first, then vertical; excludes the start, includes the end. -/
def findShortestPath (start fin : Nat × Nat) : List (Nat × Nat) :=
  let hsteps :=
    if start.2 ≤ fin.2 then
      (List.range (fin.2 - start.2)).map fun k => (start.1, start.2 + k + 1)
    else
      (List.range (start.2 - fin.2)).map fun k => (start.1, start.2 - k - 1)
  let vsteps :=
    if start.1 ≤ fin.1 then
      (List.range (fin.1 - start.1)).map fun k => (start.1 + k + 1, fin.2)
    else
      (List.range (start.1 - fin.1)).map fun k => (start.1 - k - 1, fin.2)
  hsteps ++ vsteps

/-- Source: `connectComponents` — pick, over all pairs of cells of the two
components, the first strictly shortest stepped path (the JS `Infinity`
sentinel becomes `2 * size + 1`, larger than any stepped path between in-range
cells), and overwrite that path with `regionId`. -/
def connectComponents (g : Grid Int) (comp1 comp2 : List (Nat × Nat))
    (regionId : Int) (size : Nat) : Grid Int :=
  let best := comp1.foldl (fun (st : Nat × List (Nat × Nat)) cell1 =>
    comp2.foldl (fun (st : Nat × List (Nat × Nat)) cell2 =>
      let path := findShortestPath cell1 cell2
      if path.length < st.1 then (path.length, path) else st) st)
    (2 * size + 1, [])
  best.2.foldl (fun g cell => gridSet g cell.1 cell.2 regionId) g

/-- Source: `connectRegion` — decompose into components (computed once, on the
grid before any stitching) and connect each later component to the first. -/
def connectRegion (g : Grid Int) (regionId : Int) (size : Nat) : Grid Int :=
  let regionCells := regionCellsOf g regionId size
  if regionCells.length ≤ 1 then g
  else
    match collectComponents g regionId size regionCells with
    | [] => g
    | c0 :: rest =>
      if rest.isEmpty then g
      else rest.foldl (fun g2 ci => connectComponents g2 c0 ci regionId size) g

/-- Source: `ConnectivityValidator.fixConnectivity` — for each label of the
input grid in scan order, repair it if it is disconnected in the current
grid. -/
def fixConnectivity (p : Puzzle) : Puzzle :=
  let regionIds := dedupFirst (regionValuesList p p.size)
  { p with
    regions := regionIds.foldl (fun g v =>
      if isRegionConnected g v p.size then g else connectRegion g v p.size)
      p.regions }

/-- Puzzle whose label 1 is split by label 0: repairing 1 stitches through the
middle row and disconnects label 0, which was already checked. -/
def cexPuzzle7a : Puzzle := { size := 3, regions := [[0, 0, 0], [1, 0, 1], [0, 0, 0]] }

/-- Puzzle whose label 0 is split by the single-cell label 1: repairing 0
overwrites that only cell of label 1, losing the label. -/
def cexPuzzle7b : Puzzle := { size := 3, regions := [[0, 1, 0], [2, 2, 2], [2, 2, 2]] }

/-- C7 counterexample: two grids with a disconnected label on which repair
fails the claim. On `cexPuzzle7a` the repaired grid still fails
`validateConnectivity` (stitching label 1 across row 1 cuts label 0 in two);
on `cexPuzzle7b` the stitched path for label 0 overwrites the only cell of
label 1, so the set of labels present shrinks. -/
theorem c7_fixConnectivity_counterexample :
    (validateConnectivity cexPuzzle7a = false ∧
      validateConnectivity (fixConnectivity cexPuzzle7a) = false) ∧
    (validateConnectivity cexPuzzle7b = false ∧
      (1 : Int) ∈ regionValuesList cexPuzzle7b 3 ∧
      ¬ (1 : Int) ∈ regionValuesList (fixConnectivity cexPuzzle7b) 3) := by
  decide

theorem preserve_foldl_mem {α β : Type} (P : β → Prop) (step : β → α → β) :
    ∀ (l : List α), (∀ g a, a ∈ l → P g → P (step g a)) →
      ∀ (g : β), P g → P (l.foldl step g) := by
  intro l
  induction l with
  | nil => exact fun _ g h => h
  | cons a t ih =>
    intro hstep g h
    exact ih (fun g' a' ha' => hstep g' a' (List.mem_cons_of_mem _ ha')) _
      (hstep g a (List.mem_cons_self _ _) h)

/-- The invariant of the repair: the grid stays n-by-n and every in-range cell
holds a label that was present in the input grid. -/
def RepairInv (p : Puzzle) (n : Nat) (g : Grid Int) : Prop :=
  SquareGrid g n ∧ ∀ r c, r < n → c < n → gridGet 0 g r c ∈ regionValuesList p p.size

theorem preserve_gridSet_value {p : Puzzle} {n : Nat} {v : Int}
    (hv : v ∈ regionValuesList p p.size) (r c : Nat) {g : Grid Int}
    (h : RepairInv p n g) : RepairInv p n (gridSet g r c v) := by
  obtain ⟨hsq, hvals⟩ := h
  refine ⟨squareGrid_set hsq r c v, ?_⟩
  intro r' c' hr' hc'
  rw [gridGet_set 0 g hsq r c v r' c']
  by_cases hcase : r = r' ∧ c = c' ∧ r < n ∧ c < n
  · rw [if_pos hcase]
    exact hv
  · rw [if_neg hcase]
    exact hvals r' c' hr' hc'

theorem preserve_connectComponents {p : Puzzle} {n : Nat} {v : Int}
    (hv : v ∈ regionValuesList p p.size) (comp1 comp2 : List (Nat × Nat))
    (size : Nat) {g : Grid Int} (h : RepairInv p n g) :
    RepairInv p n (connectComponents g comp1 comp2 v size) := by
  unfold connectComponents
  exact preserve_foldl (RepairInv p n) _
    (fun g2 cell hg => preserve_gridSet_value hv cell.1 cell.2 hg) _ g h

theorem preserve_connectRegion {p : Puzzle} {n : Nat} {v : Int}
    (hv : v ∈ regionValuesList p p.size) (size : Nat) {g : Grid Int}
    (h : RepairInv p n g) : RepairInv p n (connectRegion g v size) := by
  unfold connectRegion
  by_cases h1 : (regionCellsOf g v size).length ≤ 1
  · rw [if_pos h1]
    exact h
  · rw [if_neg h1]
    cases hcs : collectComponents g v size (regionCellsOf g v size) with
    | nil => exact h
    | cons c0 rest =>
      change RepairInv p n (if rest.isEmpty = true then g
        else List.foldl (fun g2 ci => connectComponents g2 c0 ci v size) g rest)
      by_cases h2 : rest.isEmpty
      · rw [if_pos h2]
        exact h
      · rw [if_neg h2]
        exact preserve_foldl (RepairInv p n) _
          (fun g2 ci hg => preserve_connectComponents hv c0 ci size hg) _ g h

/-- C7 as amended: repair never changes the grid's dimensions and never
invents labels — every label present after `fixConnectivity` was present
before (so the label set can only shrink, and, as the counterexample shows,
the repaired grid need not pass `validateConnectivity` and the label set need
not be preserved). -/
theorem c7_fixConnectivity_amended (p : Puzzle) (n : Nat)
    (hs : p.size = n) (hp : SquareGrid p.regions n) :
    (fixConnectivity p).size = p.size ∧
    SquareGrid (fixConnectivity p).regions n ∧
    ∀ v, v ∈ regionValuesList (fixConnectivity p) p.size →
      v ∈ regionValuesList p p.size := by
  have hinv : RepairInv p n (fixConnectivity p).regions := by
    unfold fixConnectivity
    refine preserve_foldl_mem (RepairInv p n) _ _ ?_ p.regions ⟨hp, ?_⟩
    · intro g v hvmem hg
      by_cases hc : isRegionConnected g v p.size = true
      · rw [if_pos hc]
        exact hg
      · rw [if_neg hc]
        exact preserve_connectRegion
          ((mem_dedupFirst (regionValuesList p p.size) v).mp hvmem) p.size hg
    · intro r c hr hc
      exact (mem_regionValuesList p p.size _).mpr ⟨r, c, by omega, by omega, rfl⟩
  obtain ⟨hsq, hvals⟩ := hinv
  refine ⟨rfl, hsq, ?_⟩
  intro v hv
  obtain ⟨r, c, hr, hc, hval⟩ := (mem_regionValuesList _ _ _).mp hv
  rw [← hval]
  exact hvals r c (by omega) (by omega)

/-- Witness for the amended C7. -/
theorem c7_fixConnectivity_amended_witness :
    (cexPuzzle7a.size = 3 ∧ SquareGrid cexPuzzle7a.regions 3) ∧
    ((fixConnectivity cexPuzzle7a).size = cexPuzzle7a.size ∧
      SquareGrid (fixConnectivity cexPuzzle7a).regions 3 ∧
      ∀ v, v ∈ regionValuesList (fixConnectivity cexPuzzle7a) cexPuzzle7a.size →
        v ∈ regionValuesList cexPuzzle7a cexPuzzle7a.size) :=
  ⟨⟨by decide, by decide⟩, c7_fixConnectivity_amended _ 3 (by decide) (by decide)⟩

/-! The fixed puzzle catalog (`solvablePuzzles.ts`). String ids/names omitted;
entry k corresponds to `puzzle-(k+1)`. -/

/-- Source: `GUARANTEED_SOLVABLE_PUZZLES` — the 28 hand-entered catalog grids. -/
def GUARANTEED_SOLVABLE_PUZZLES : List Puzzle := [
  { size := 5,
    regions := [[0, 0, 1, 1, 1],
      [0, 0, 1, 1, 2],
      [3, 3, 3, 2, 2],
      [3, 4, 4, 4, 2],
      [3, 3, 4, 4, 4]] },
  { size := 5,
    regions := [[0, 0, 1, 1, 1],
      [0, 2, 2, 1, 3],
      [0, 2, 4, 4, 3],
      [2, 2, 2, 4, 3],
      [2, 4, 4, 4, 3]] },
  { size := 5,
    regions := [[0, 0, 0, 1, 1],
      [0, 2, 3, 3, 1],
      [2, 2, 2, 3, 1],
      [2, 4, 4, 3, 3],
      [4, 4, 4, 4, 3]] },
  { size := 5,
    regions := [[0, 0, 1, 1, 2],
      [0, 3, 3, 1, 2],
      [3, 3, 1, 1, 2],
      [3, 4, 4, 2, 2],
      [4, 4, 4, 4, 2]] },
  { size := 5,
    regions := [[0, 0, 0, 1, 1],
      [0, 2, 3, 3, 1],
      [2, 2, 2, 3, 1],
      [2, 4, 4, 3, 3],
      [4, 4, 4, 4, 3]] },
  { size := 6,
    regions := [[0, 0, 0, 1, 1, 1],
      [0, 2, 2, 1, 3, 3],
      [0, 2, 4, 4, 4, 3],
      [2, 2, 2, 4, 5, 5],
      [2, 4, 4, 4, 4, 5],
      [4, 4, 5, 5, 5, 5]] },
  { size := 6,
    regions := [[0, 0, 1, 1, 2, 2],
      [0, 3, 3, 1, 2, 4],
      [0, 3, 1, 1, 4, 4],
      [3, 3, 3, 4, 4, 2],
      [3, 4, 4, 4, 2, 2],
      [4, 4, 2, 2, 2, 5]] },
  { size := 6,
    regions := [[0, 0, 1, 1, 2, 2],
      [0, 3, 3, 1, 2, 4],
      [3, 3, 1, 1, 4, 4],
      [3, 5, 5, 4, 4, 1],
      [5, 5, 0, 0, 4, 1],
      [5, 0, 0, 3, 3, 1]] },
  { size := 6,
    regions := [[0, 0, 1, 1, 2, 2],
      [0, 3, 1, 4, 2, 5],
      [0, 3, 3, 4, 4, 5],
      [3, 3, 1, 1, 4, 2],
      [0, 1, 1, 4, 4, 2],
      [0, 0, 4, 4, 2, 2]] },
  { size := 6,
    regions := [[0, 0, 0, 1, 1, 1],
      [0, 2, 2, 1, 3, 3],
      [2, 2, 4, 4, 4, 3],
      [2, 4, 4, 5, 5, 3],
      [4, 4, 5, 5, 3, 3],
      [4, 5, 5, 3, 3, 0]] },
  { size := 7,
    regions := [[0, 0, 0, 1, 1, 1, 2],
      [0, 3, 3, 1, 4, 4, 2],
      [0, 3, 5, 5, 5, 4, 2],
      [3, 3, 3, 5, 4, 4, 4],
      [3, 6, 6, 5, 5, 4, 2],
      [6, 6, 0, 0, 4, 4, 2],
      [6, 0, 0, 1, 1, 2, 2]] },
  { size := 7,
    regions := [[0, 0, 1, 1, 1, 2, 2],
      [0, 3, 3, 1, 4, 4, 2],
      [0, 3, 5, 5, 4, 4, 2],
      [3, 3, 3, 5, 5, 4, 4],
      [3, 6, 6, 6, 5, 4, 2],
      [6, 6, 0, 6, 4, 4, 2],
      [6, 0, 0, 1, 1, 2, 2]] },
  { size := 5,
    regions := [[0, 0, 1, 1, 1],
      [0, 2, 2, 1, 3],
      [2, 2, 1, 1, 3],
      [2, 4, 4, 3, 3],
      [4, 4, 4, 3, 0]] },
  { size := 5,
    regions := [[0, 0, 1, 1, 1],
      [0, 2, 2, 1, 3],
      [0, 2, 4, 4, 3],
      [2, 2, 2, 4, 3],
      [2, 4, 4, 4, 3]] },
  { size := 5,
    regions := [[0, 0, 0, 1, 1],
      [0, 2, 3, 3, 1],
      [2, 2, 2, 3, 1],
      [2, 4, 4, 3, 3],
      [4, 4, 4, 4, 3]] },
  { size := 6,
    regions := [[0, 0, 1, 1, 2, 2],
      [0, 3, 3, 1, 2, 4],
      [0, 3, 5, 5, 4, 4],
      [3, 3, 3, 5, 4, 2],
      [3, 5, 5, 5, 4, 2],
      [5, 5, 0, 4, 4, 2]] },
  { size := 6,
    regions := [[0, 0, 1, 1, 1, 2],
      [0, 3, 3, 1, 4, 2],
      [0, 3, 5, 5, 4, 2],
      [3, 3, 3, 5, 4, 4],
      [3, 1, 1, 5, 5, 2],
      [0, 0, 5, 2, 2, 2]] },
  { size := 7,
    regions := [[0, 0, 1, 1, 1, 2, 2],
      [0, 3, 3, 1, 4, 4, 2],
      [0, 3, 5, 5, 4, 4, 2],
      [3, 3, 3, 5, 5, 4, 4],
      [3, 6, 6, 6, 5, 4, 2],
      [6, 6, 0, 5, 5, 2, 2],
      [6, 0, 0, 1, 2, 2, 4]] },
  { size := 7,
    regions := [[0, 0, 0, 1, 1, 2, 2],
      [0, 3, 4, 4, 1, 2, 5],
      [0, 3, 3, 4, 1, 5, 5],
      [3, 3, 6, 4, 4, 5, 2],
      [3, 6, 6, 6, 4, 5, 2],
      [6, 6, 1, 1, 1, 2, 2],
      [6, 0, 0, 4, 4, 5, 5]] },
  { size := 8,
    regions := [[0, 0, 0, 1, 1, 1, 2, 2],
      [0, 3, 3, 1, 4, 4, 2, 5],
      [0, 3, 6, 6, 6, 4, 2, 5],
      [3, 3, 3, 6, 4, 4, 4, 5],
      [3, 7, 7, 6, 6, 4, 5, 5],
      [7, 7, 0, 0, 6, 4, 4, 2],
      [7, 0, 0, 1, 1, 1, 2, 2],
      [7, 7, 1, 6, 6, 2, 2, 5]] },
  { size := 8,
    regions := [[0, 0, 0, 0, 1, 1, 1, 1],
      [0, 0, 0, 2, 2, 1, 1, 1],
      [0, 0, 2, 2, 2, 2, 1, 1],
      [0, 3, 3, 3, 3, 2, 2, 1],
      [4, 3, 3, 3, 5, 5, 2, 2],
      [4, 4, 3, 5, 5, 5, 5, 6],
      [4, 4, 4, 4, 5, 6, 6, 6],
      [7, 7, 7, 4, 4, 6, 6, 6]] },
  { size := 8,
    regions := [[0, 0, 0, 1, 1, 2, 2, 2],
      [0, 0, 3, 3, 1, 1, 2, 4],
      [0, 3, 3, 5, 5, 1, 4, 4],
      [0, 0, 3, 5, 6, 6, 6, 4],
      [0, 7, 7, 5, 5, 6, 4, 4],
      [0, 0, 7, 7, 5, 6, 6, 4],
      [0, 7, 7, 5, 5, 5, 6, 4],
      [0, 0, 7, 7, 5, 6, 6, 4]] },
  { size := 8,
    regions := [[0, 0, 1, 1, 2, 2, 3, 3],
      [0, 4, 4, 1, 2, 5, 5, 3],
      [0, 4, 6, 6, 2, 5, 7, 7],
      [4, 4, 4, 6, 6, 5, 5, 7],
      [4, 0, 0, 6, 2, 2, 7, 7],
      [0, 0, 1, 1, 2, 5, 5, 3],
      [0, 1, 1, 1, 2, 3, 3, 3],
      [4, 4, 1, 6, 6, 2, 7, 7]] },
  { size := 9,
    regions := [[0, 0, 0, 1, 1, 1, 2, 2, 2],
      [0, 3, 3, 1, 4, 4, 2, 5, 5],
      [0, 3, 6, 6, 4, 7, 7, 5, 2],
      [3, 3, 3, 6, 4, 4, 7, 5, 2],
      [3, 6, 6, 6, 4, 7, 7, 5, 2],
      [6, 6, 1, 1, 1, 7, 2, 2, 2],
      [6, 0, 0, 4, 4, 4, 2, 5, 5],
      [0, 0, 4, 4, 7, 7, 2, 5, 5],
      [3, 3, 4, 7, 7, 2, 2, 5, 5]] },
  { size := 9,
    regions := [[0, 0, 0, 1, 1, 1, 2, 2, 2],
      [0, 3, 3, 1, 4, 4, 2, 5, 5],
      [0, 3, 6, 6, 4, 7, 7, 5, 0],
      [3, 3, 3, 6, 4, 4, 7, 5, 0],
      [3, 6, 6, 6, 4, 7, 7, 5, 0],
      [6, 6, 1, 1, 1, 7, 0, 0, 0],
      [6, 2, 2, 4, 4, 4, 0, 5, 5],
      [2, 2, 4, 4, 7, 7, 0, 5, 5],
      [3, 3, 4, 7, 7, 0, 0, 5, 5]] },
  { size := 9,
    regions := [[0, 0, 1, 1, 1, 2, 2, 2, 3],
      [0, 4, 4, 1, 5, 5, 2, 6, 3],
      [0, 4, 7, 7, 5, 0, 0, 6, 3],
      [4, 4, 4, 7, 5, 5, 0, 6, 6],
      [4, 1, 1, 7, 7, 0, 0, 6, 3],
      [1, 1, 0, 7, 0, 0, 6, 6, 3],
      [1, 2, 2, 1, 1, 2, 2, 3, 3],
      [2, 2, 1, 7, 7, 2, 6, 6, 3],
      [4, 4, 1, 7, 0, 0, 6, 3, 3]] },
  { size := 9,
    regions := [[0, 0, 1, 1, 2, 2, 3, 3, 3],
      [0, 4, 4, 1, 2, 5, 5, 3, 6],
      [0, 4, 7, 7, 2, 5, 0, 0, 6],
      [4, 4, 4, 7, 7, 5, 5, 0, 6],
      [4, 1, 1, 7, 2, 2, 0, 0, 6],
      [1, 1, 0, 0, 2, 5, 5, 0, 6],
      [1, 3, 3, 1, 2, 3, 3, 6, 6],
      [3, 3, 1, 7, 7, 3, 0, 0, 6],
      [4, 4, 1, 7, 2, 2, 0, 6, 6]] },
  { size := 9,
    regions := [[0, 0, 1, 1, 2, 2, 3, 3, 3],
      [0, 4, 4, 1, 2, 5, 5, 3, 6],
      [0, 4, 7, 7, 2, 5, 0, 0, 6],
      [4, 4, 4, 7, 7, 5, 5, 0, 6],
      [4, 1, 1, 7, 2, 2, 0, 0, 6],
      [1, 1, 0, 0, 2, 5, 5, 0, 6],
      [1, 7, 7, 2, 2, 3, 3, 6, 6],
      [7, 7, 4, 4, 5, 5, 6, 6, 0],
      [4, 4, 5, 5, 6, 6, 0, 0, 0]] }]

/-- Source: `getPuzzleForDay` — catalog entry at `dayIndex mod catalogSize`
(the modulus keeps the JS index in range, so the default is never used). -/
def getPuzzleForDay (dayIndex : Nat) : Puzzle :=
  GUARANTEED_SOLVABLE_PUZZLES.getD
    (dayIndex % GUARANTEED_SOLVABLE_PUZZLES.length) { size := 0, regions := [] }

/-- C10 (failing evaluation): every catalog grid is size-by-size with labels
inside [0, size-1], but `getPuzzleForDay 23` — catalog entry `puzzle-024`, of
size 9 — carries only 8 distinct labels instead of 9; consequently no board at
all satisfies `hasWon` on it, contradicting the catalog's own
"guaranteed solvable" contract. -/
theorem c10_catalog_failing_eval :
    (∀ q ∈ GUARANTEED_SOLVABLE_PUZZLES, SquareGrid q.regions q.size ∧
      ∀ r, r < q.size → ∀ c, c < q.size →
        0 ≤ regionAt q r c ∧ regionAt q r c < (q.size : Int)) ∧
    (getPuzzleForDay 23).size = 9 ∧
    (dedupFirst (regionValuesList (getPuzzleForDay 23) 9)).length = 8 ∧
    ∀ b, hasWon b (getPuzzleForDay 23) = false := by
  refine ⟨by decide, by decide, by decide, ?_⟩
  intro b
  cases hW : hasWon b (getPuzzleForDay 23) with
  | false => rfl
  | true =>
    exfalso
    obtain ⟨hcnt, hrows, hcols, hreg, hconf⟩ := (hasWon_eq_true_iff_parts _ _).mp hW
    have hnd : (queenRegionValues (getPuzzleForDay 23).size b (getPuzzleForDay 23)).Nodup :=
      List.nodup_iff_count_eq_one.mpr fun a ha => hreg a ((mem_dedupFirst _ _).mpr ha)
    have hlen : (queenRegionValues (getPuzzleForDay 23).size b (getPuzzleForDay 23)).length =
        (getPuzzleForDay 23).size :=
      length_queenRegionValues _ _ _ hrows
    have hsub : (queenRegionValues (getPuzzleForDay 23).size b (getPuzzleForDay 23)).toFinset ⊆
        (regionValuesList (getPuzzleForDay 23) (getPuzzleForDay 23).size).toFinset := by
      intro a ha
      rw [List.mem_toFinset] at ha ⊢
      obtain ⟨r, c, hr, hc, _, hv'⟩ := (mem_queenRegionValues _ _ _ _).mp ha
      exact (mem_regionValuesList _ _ _).mpr ⟨r, c, hr, hc, hv'⟩
    have hDeq : (regionValuesList (getPuzzleForDay 23) (getPuzzleForDay 23).size).toFinset =
        (dedupFirst (regionValuesList (getPuzzleForDay 23) (getPuzzleForDay 23).size)).toFinset :=
      Finset.ext fun a => by simp [List.mem_toFinset, mem_dedupFirst]
    have hcard8 :
        (regionValuesList (getPuzzleForDay 23) (getPuzzleForDay 23).size).toFinset.card = 8 := by
      rw [hDeq, List.toFinset_card_of_nodup (nodup_dedupFirst _)]
      decide
    have h9 : (queenRegionValues (getPuzzleForDay 23).size b (getPuzzleForDay 23)).toFinset.card =
        (getPuzzleForDay 23).size := by
      rw [List.toFinset_card_of_nodup hnd, hlen]
    have hle := Finset.card_le_card hsub
    rw [h9, hcard8] at hle
    have hsz : (getPuzzleForDay 23).size = 9 := by decide
    omega

/-! The region generator (`logic.ts`, lines 18-324). The seeded PRNG is
abstracted into the stream of resolved seed-cell picks it produces: one list
of distinct cell indexes per generation attempt (`picks.size < n` loops until
the JS `Set` holds n distinct indexes in `[0, n*n)`; `Array.from` reads them
back in insertion order). Quantifying over all pick streams covers every seed
of the LCG, including any floating-point corner case of `seed / 233280`.
The flood-fill queue becomes fuel-indexed recursion; every cell is written at
most once (only `-1` cells are assigned) and each write enqueues one entry, so
a fuel of `n * n + seeds.length` is never exhausted before the queue empties. -/

/-- An n-by-n grid of the unassigned sentinel `-1`. -/
def negOneGrid (n : Nat) : Grid Int :=
  List.replicate n (List.replicate n (-1))

/-- All cell values of a raw region grid in scan order. -/
def gridValuesList (g : Grid Int) (n : Nat) : List Int :=
  (pairsUpTo n).map fun rc => gridGet (-1) g rc.1 rc.2

/-- The distinct labels of a raw region grid (the JS `Set` of its values). -/
def labelsOf (g : Grid Int) (n : Nat) : List Int :=
  dedupFirst (gridValuesList g n)

/-- The seed records of one attempt: cell index `k` becomes row `k / n`,
column `k % n`, with consecutive ids in pick order. -/
def seedsOfPicks (n : Nat) (picks : List Nat) : List (Nat × Nat × Int) :=
  picks.enum.map fun ik => (ik.2 / n, ik.2 % n, (ik.1 : Int))

/-- One neighbour examination of the flood fill: assign the dequeued entry's
label to the offset cell when it is in range and still `-1`, and enqueue it. -/
def floodStep (n : Nat) (e : Nat × Nat × Int)
    (st : Grid Int × List (Nat × Nat × Int)) (dd : Int × Int) :
    Grid Int × List (Nat × Nat × Int) :=
  if 0 ≤ (e.1 : Int) + dd.1 ∧ (e.1 : Int) + dd.1 < (n : Int) ∧
      0 ≤ (e.2.1 : Int) + dd.2 ∧ (e.2.1 : Int) + dd.2 < (n : Int) ∧
      gridGet (-1) st.1 ((e.1 : Int) + dd.1).toNat ((e.2.1 : Int) + dd.2).toNat = -1 then
    (gridSet st.1 ((e.1 : Int) + dd.1).toNat ((e.2.1 : Int) + dd.2).toNat e.2.2,
      st.2 ++ [(((e.1 : Int) + dd.1).toNat, ((e.2.1 : Int) + dd.2).toNat, e.2.2)])
  else st

/-- Multi-source BFS flood fill: dequeue an entry and assign its label to each
in-range orthogonal neighbour still holding `-1`, enqueueing it. -/
def floodFill (n : Nat) : Nat → Grid Int → List (Nat × Nat × Int) → Grid Int
  | 0, g, _ => g
  | _ + 1, g, [] => g
  | fuel + 1, g, e :: rest =>
    floodFill n fuel (orthoDirs.foldl (floodStep n e) (g, rest)).1
      (orthoDirs.foldl (floodStep n e) (g, rest)).2

/-- One attempt of `generateRegions`: place the seed labels, then flood fill. -/
def attemptRegions (n : Nat) (picks : List Nat) : Grid Int :=
  let seeds := seedsOfPicks n picks
  let g0 := seeds.foldl (fun g s => gridSet g s.1 s.2.1 s.2.2) (negOneGrid n)
  floodFill n (n * n + seeds.length) g0 seeds

/-- The structural rejection rules of `generateRegions`: no label occupies an
entire row or column, and no label holds more than half the board. -/
def layoutValid (g : Grid Int) (n : Nat) : Bool :=
  (!(List.range n).any fun r =>
    decide ((dedupFirst ((List.range n).map fun c => gridGet (-1) g r c)).length = 1)) &&
  (!(List.range n).any fun c =>
    decide ((dedupFirst ((List.range n).map fun r => gridGet (-1) g r c)).length = 1)) &&
  (!(labelsOf g n).any fun v => decide ((gridValuesList g n).count v > n * n / 2))

/-- One neighbour examination of the smoothing scan, accumulating
(same-label count, neighbour count, last differing neighbour label). -/
def smoothStatStep (res : Grid Int) (n : Nat) (rc : Nat × Nat) (id : Int)
    (st : Nat × Nat × Int) (dd : Int × Int) : Nat × Nat × Int :=
  if 0 ≤ (rc.1 : Int) + dd.1 ∧ (rc.1 : Int) + dd.1 < (n : Int) ∧
      0 ≤ (rc.2 : Int) + dd.2 ∧ (rc.2 : Int) + dd.2 < (n : Int) then
    if gridGet (-1) res ((rc.1 : Int) + dd.1).toNat ((rc.2 : Int) + dd.2).toNat = id then
      (st.1 + 1, st.2.1 + 1, st.2.2)
    else
      (st.1, st.2.1 + 1,
        gridGet (-1) res ((rc.1 : Int) + dd.1).toNat ((rc.2 : Int) + dd.2).toNat)
  else st

/-- The neighbour statistics of one cell (the `same`/`neigh`/`neighborId`
accumulation of `performConservativeSmoothing`). -/
def smoothStats (res : Grid Int) (n : Nat) (rc : Nat × Nat) (id : Int) : Nat × Nat × Int :=
  orthoDirs.foldl (smoothStatStep res n rc id) (0, 0, -1)

/-- One cell of the smoothing scan: reassign an isolated cell (no same-label
neighbour) to the last differing neighbour's label, but only when its label
still has another cell elsewhere. -/
def smoothCellStep (n : Nat) (res : Grid Int) (rc : Nat × Nat) : Grid Int :=
  if (smoothStats res n rc (gridGet (-1) res rc.1 rc.2)).2.1 > 0 ∧
      (smoothStats res n rc (gridGet (-1) res rc.1 rc.2)).1 = 0 ∧
      (smoothStats res n rc (gridGet (-1) res rc.1 rc.2)).2.2 ≠ -1 then
    if (gridValuesList res n).count (gridGet (-1) res rc.1 rc.2) > 1 then
      gridSet res rc.1 rc.2 (smoothStats res n rc (gridGet (-1) res rc.1 rc.2)).2.2
    else res
  else res

/-- Source: `performConservativeSmoothing` — scan all cells; a cell with no
same-label orthogonal neighbour whose label still has another cell elsewhere
is reassigned to the last differing neighbour's label. The scan mutates the
working copy in place, so each step reads the grid produced by the previous
steps. -/
def performConservativeSmoothing (g : Grid Int) (n : Nat) : Grid Int :=
  (pairsUpTo n).foldl (smoothCellStep n) g

/-- Source: `normalizeRegionIds` — map each label to its rank among the sorted
distinct labels (the JS `idMapping.get(...) || 0` falls back to 0 only for
absent ids, which cannot occur since every grid value is collected first). -/
def normalizeRegionIds (g : Grid Int) : Grid Int :=
  let n := g.length
  let sortedIds := (dedupFirst (gridValuesList g n)).mergeSort fun a b => decide (a ≤ b)
  (List.range n).map fun r => (List.range n).map fun c =>
    ((sortedIds.indexOf (gridGet (-1) g r c) : Nat) : Int)

/-- Fallback pattern 1 (and the ultimate fallback): diagonal stripes. -/
def diagonalPattern (n : Nat) : Grid Int :=
  (List.range n).map fun r => (List.range n).map fun c => (((r + c) % n : Nat) : Int)

/-- Fallback pattern 2: horizontal stripes with offset. -/
def stripePattern2 (n : Nat) : Grid Int :=
  (List.range n).map fun r => (List.range n).map fun c => (((r + c / 2) % n : Nat) : Int)

/-- Fallback pattern 3: vertical stripes with offset. -/
def stripePattern3 (n : Nat) : Grid Int :=
  (List.range n).map fun r => (List.range n).map fun c => (((c + r / 2) % n : Nat) : Int)

/-- Fallback pattern 4: hardcoded layouts for sizes 5 and 6, diagonal stripes
otherwise. -/
def knownPattern4 (n : Nat) : Grid Int :=
  if n = 5 then
    [[0, 1, 2, 3, 4], [2, 3, 4, 0, 1], [4, 0, 1, 2, 3], [1, 2, 3, 4, 0], [3, 4, 0, 1, 2]]
  else if n = 6 then
    [[0, 1, 2, 3, 4, 5], [2, 3, 4, 5, 0, 1], [4, 5, 0, 1, 2, 3],
     [1, 2, 3, 4, 5, 0], [3, 4, 5, 0, 1, 2], [5, 0, 1, 2, 3, 4]]
  else diagonalPattern n

/-- Source: `createFallbackRegions` — first solvable pattern in order, then
the unconditional diagonal stripes. -/
def createFallbackRegions (n : Nat) : Grid Int :=
  if isPuzzleSolvable { size := n, regions := diagonalPattern n } then diagonalPattern n
  else if isPuzzleSolvable { size := n, regions := stripePattern2 n } then stripePattern2 n
  else if isPuzzleSolvable { size := n, regions := stripePattern3 n } then stripePattern3 n
  else if isPuzzleSolvable { size := n, regions := knownPattern4 n } then knownPattern4 n
  else diagonalPattern n

/-- The accepted (non-fallback) path of `generateRegions`: the first attempt
that passes the distinct-label check, the layout rules, the post-smoothing
label check and the solvability gate; `none` when every attempt is rejected. -/
def acceptedRegions (n : Nat) : List (List Nat) → Option (Grid Int)
  | [] => none
  | picks :: rest =>
    if (dedupFirst (gridValuesList (attemptRegions n picks) n)).length ≠ n then
      acceptedRegions n rest
    else if layoutValid (attemptRegions n picks) n = false then
      acceptedRegions n rest
    else if (dedupFirst (gridValuesList
          (performConservativeSmoothing (attemptRegions n picks) n) n)).length = n ∧
        isPuzzleSolvable (Puzzle.mk n (normalizeRegionIds (performConservativeSmoothing (attemptRegions n picks) n))) = true then
      some (normalizeRegionIds (performConservativeSmoothing (attemptRegions n picks) n))
    else acceptedRegions n rest

/-- Source: `generateRegions` — up to `maxAttempts = 10` attempts (the
`while` loop with early return), then the fallback layouts. -/
def generateRegions (n : Nat) (attempts : List (List Nat)) : Grid Int :=
  (acceptedRegions n (attempts.take 10)).getD (createFallbackRegions n)

/-! Basic facts about raw region grids. -/

theorem squareGrid_replicate {α : Type} (x : α) (n : Nat) :
    SquareGrid (List.replicate n (List.replicate n x)) n := by
  refine ⟨by simp, ?_⟩
  intro row h
  rw [List.eq_of_mem_replicate h]
  simp

theorem mem_gridValuesList (g : Grid Int) (n : Nat) (v : Int) :
    v ∈ gridValuesList g n ↔ ∃ r c, r < n ∧ c < n ∧ gridGet (-1) g r c = v := by
  unfold gridValuesList
  simp only [List.mem_map]
  constructor
  · rintro ⟨rc, hrc, h⟩
    rw [show rc = (rc.1, rc.2) from rfl, mem_pairsUpTo] at hrc
    exact ⟨rc.1, rc.2, hrc.1, hrc.2, h⟩
  · rintro ⟨r, c, hr, hc, h⟩
    exact ⟨(r, c), (mem_pairsUpTo n r c).mpr ⟨hr, hc⟩, h⟩

theorem toFinset_card_eq_dedupFirst {α : Type} [DecidableEq α] (l : List α) :
    l.toFinset.card = (dedupFirst l).length := by
  have h : l.toFinset = (dedupFirst l).toFinset :=
    Finset.ext fun a => by simp [List.mem_toFinset, mem_dedupFirst]
  rw [h, List.toFinset_card_of_nodup (nodup_dedupFirst l)]

/-- A cell read of a square grid that returns a value other than the default
must be in range. -/
theorem bounds_of_gridGet_ne {α : Type} {d : α} {g : Grid α} {n : Nat}
    (hsq : SquareGrid g n) {r c : Nat} (h : gridGet d g r c ≠ d) : r < n ∧ c < n := by
  obtain ⟨hlen, hrow⟩ := hsq
  by_cases hr : r < g.length
  · have hrl : (g.getD r []).length = n := by
      rw [List.getD_eq_getElem _ _ hr]
      exact hrow _ (List.getElem_mem hr)
    by_cases hc : c < (g.getD r []).length
    · exact ⟨by omega, by omega⟩
    · exfalso
      apply h
      unfold gridGet
      rw [List.getD_eq_default (g.getD r []) _ (by omega)]
  · exfalso
    apply h
    unfold gridGet
    rw [show g.getD r [] = [] from List.getD_eq_default _ _ (by omega)]
    simp

/-! Values of `normalizeRegionIds` on a grid that passed the distinct-label
check. -/

theorem indexOf_inj {l : List Int} {a b2 : Int} (ha : a ∈ l) (hb : b2 ∈ l)
    (h : l.indexOf a = l.indexOf b2) : a = b2 := by
  have h1 := List.indexOf_get (List.indexOf_lt_length.mpr ha)
  have h2 := List.indexOf_get (List.indexOf_lt_length.mpr hb)
  rw [← h1, ← h2]
  congr 1
  exact Fin.ext h

theorem squareGrid_normalize {g : Grid Int} {n : Nat} (hlen : g.length = n) :
    SquareGrid (normalizeRegionIds g) n := by
  unfold normalizeRegionIds
  rw [hlen]
  exact squareGrid_ofFn _ _

theorem gridGet_normalize {g : Grid Int} {n : Nat} (hlen : g.length = n)
    (r c : Nat) (hr : r < n) (hc : c < n) :
    gridGet (-1) (normalizeRegionIds g) r c =
      ((((dedupFirst (gridValuesList g n)).mergeSort fun a b =>
        decide (a ≤ b)).indexOf (gridGet (-1) g r c) : Nat) : Int) := by
  unfold normalizeRegionIds
  rw [hlen]
  exact gridGet_ofFn _ _ n r c hr hc

theorem normalize_values (g : Grid Int) (n : Nat) (hlen : g.length = n)
    (hdl : (dedupFirst (gridValuesList g n)).length = n) :
    ∀ v : Int, v ∈ gridValuesList (normalizeRegionIds g) n ↔ (0 ≤ v ∧ v < (n : Int)) := by
  have hperm := List.mergeSort_perm (dedupFirst (gridValuesList g n))
    fun a b => decide (a ≤ b)
  set sorted := (dedupFirst (gridValuesList g n)).mergeSort fun a b => decide (a ≤ b)
    with hsorted
  have hnd : sorted.Nodup := hperm.nodup_iff.mpr (nodup_dedupFirst _)
  have hslen : sorted.length = n := hperm.length_eq.trans hdl
  have hmem : ∀ x, x ∈ sorted ↔ x ∈ gridValuesList g n := fun x =>
    hperm.mem_iff.trans (mem_dedupFirst _ _)
  intro v
  rw [mem_gridValuesList]
  constructor
  · rintro ⟨r, c, hr, hc, hval⟩
    rw [gridGet_normalize hlen r c hr hc, ← hsorted] at hval
    have hu : gridGet (-1) g r c ∈ sorted :=
      (hmem _).mpr ((mem_gridValuesList g n _).mpr ⟨r, c, hr, hc, rfl⟩)
    have hidx : sorted.indexOf (gridGet (-1) g r c) < sorted.length :=
      List.indexOf_lt_length.mpr hu
    rw [← hval]
    constructor
    · exact Int.ofNat_nonneg _
    · exact_mod_cast (by omega : sorted.indexOf (gridGet (-1) g r c) < n)
  · rintro ⟨h0, h1⟩
    have hi : v.toNat < sorted.length := by
      rw [hslen]; omega
    set u := sorted.get ⟨v.toNat, hi⟩ with hu
    have humem : u ∈ sorted := List.get_mem sorted v.toNat hi
    obtain ⟨r, c, hr, hc, hval⟩ := (mem_gridValuesList g n u).mp ((hmem u).mp humem)
    refine ⟨r, c, hr, hc, ?_⟩
    rw [gridGet_normalize hlen r c hr hc, ← hsorted, hval, hu,
      List.get_indexOf hnd ⟨v.toNat, hi⟩]
    show ((v.toNat : Nat) : Int) = v
    omega

/-! The fallback patterns. -/

theorem values_iff_of_bounds (l : List Int) (n : Nat)
    (h1 : ∀ v ∈ l, 0 ≤ v ∧ v < (n : Int)) (h2 : ∀ k : Nat, k < n → ((k : Int) ∈ l)) :
    ∀ v : Int, v ∈ l ↔ (0 ≤ v ∧ v < (n : Int)) := by
  intro v
  refine ⟨h1 v, fun hb => ?_⟩
  have := h2 v.toNat (by omega)
  rwa [Int.toNat_of_nonneg hb.1] at this

theorem diagonalPattern_values (n : Nat) (hn : 0 < n) :
    ∀ v : Int, v ∈ gridValuesList (diagonalPattern n) n ↔ (0 ≤ v ∧ v < (n : Int)) := by
  refine values_iff_of_bounds _ n ?_ ?_
  · intro v hv
    obtain ⟨r, c, hr, hc, hval⟩ := (mem_gridValuesList _ _ _).mp hv
    rw [show diagonalPattern n = ((List.range n).map fun r => (List.range n).map fun c =>
        (((r + c) % n : Nat) : Int)) from rfl, gridGet_ofFn _ _ n r c hr hc] at hval
    have := Nat.mod_lt (r + c) hn
    omega
  · intro k hk
    rw [mem_gridValuesList]
    refine ⟨0, k, hn, hk, ?_⟩
    rw [show diagonalPattern n = ((List.range n).map fun r => (List.range n).map fun c =>
        (((r + c) % n : Nat) : Int)) from rfl, gridGet_ofFn _ _ n 0 k hn hk]
    rw [Nat.zero_add, Nat.mod_eq_of_lt hk]

theorem stripePattern2_values (n : Nat) (hn : 0 < n) :
    ∀ v : Int, v ∈ gridValuesList (stripePattern2 n) n ↔ (0 ≤ v ∧ v < (n : Int)) := by
  refine values_iff_of_bounds _ n ?_ ?_
  · intro v hv
    obtain ⟨r, c, hr, hc, hval⟩ := (mem_gridValuesList _ _ _).mp hv
    rw [show stripePattern2 n = ((List.range n).map fun r => (List.range n).map fun c =>
        (((r + c / 2) % n : Nat) : Int)) from rfl, gridGet_ofFn _ _ n r c hr hc] at hval
    have := Nat.mod_lt (r + c / 2) hn
    omega
  · intro k hk
    rw [mem_gridValuesList]
    refine ⟨k, 0, hk, hn, ?_⟩
    rw [show stripePattern2 n = ((List.range n).map fun r => (List.range n).map fun c =>
        (((r + c / 2) % n : Nat) : Int)) from rfl, gridGet_ofFn _ _ n k 0 hk hn]
    norm_num [Nat.mod_eq_of_lt hk]

theorem stripePattern3_values (n : Nat) (hn : 0 < n) :
    ∀ v : Int, v ∈ gridValuesList (stripePattern3 n) n ↔ (0 ≤ v ∧ v < (n : Int)) := by
  refine values_iff_of_bounds _ n ?_ ?_
  · intro v hv
    obtain ⟨r, c, hr, hc, hval⟩ := (mem_gridValuesList _ _ _).mp hv
    rw [show stripePattern3 n = ((List.range n).map fun r => (List.range n).map fun c =>
        (((c + r / 2) % n : Nat) : Int)) from rfl, gridGet_ofFn _ _ n r c hr hc] at hval
    have := Nat.mod_lt (c + r / 2) hn
    omega
  · intro k hk
    rw [mem_gridValuesList]
    refine ⟨0, k, hn, hk, ?_⟩
    rw [show stripePattern3 n = ((List.range n).map fun r => (List.range n).map fun c =>
        (((c + r / 2) % n : Nat) : Int)) from rfl, gridGet_ofFn _ _ n 0 k hn hk]
    norm_num [Nat.mod_eq_of_lt hk]

theorem knownPattern4_values (n : Nat) (hn : 0 < n) :
    ∀ v : Int, v ∈ gridValuesList (knownPattern4 n) n ↔ (0 ≤ v ∧ v < (n : Int)) := by
  unfold knownPattern4
  by_cases h5 : n = 5
  · subst h5
    rw [if_pos rfl]
    exact values_iff_of_bounds _ 5 (by decide) (by decide)
  · rw [if_neg h5]
    by_cases h6 : n = 6
    · subst h6
      rw [if_pos rfl]
      exact values_iff_of_bounds _ 6 (by decide) (by decide)
    · rw [if_neg h6]
      exact diagonalPattern_values n hn

theorem createFallbackRegions_cases (n : Nat) :
    createFallbackRegions n = diagonalPattern n ∨
    createFallbackRegions n = stripePattern2 n ∨
    createFallbackRegions n = stripePattern3 n ∨
    createFallbackRegions n = knownPattern4 n := by
  unfold createFallbackRegions
  split_ifs <;> tauto

theorem createFallbackRegions_values (n : Nat) (hn : 0 < n) :
    ∀ v : Int, v ∈ gridValuesList (createFallbackRegions n) n ↔ (0 ≤ v ∧ v < (n : Int)) := by
  rcases createFallbackRegions_cases n with h | h | h | h <;> rw [h]
  · exact diagonalPattern_values n hn
  · exact stripePattern2_values n hn
  · exact stripePattern3_values n hn
  · exact knownPattern4_values n hn

/-! Squareness of the generator's grids. -/

theorem squareGrid_floodFill (n : Nat) :
    ∀ fuel (g : Grid Int) q, SquareGrid g n → SquareGrid (floodFill n fuel g q) n := by
  intro fuel
  induction fuel with
  | zero => exact fun g q h => h
  | succ fuel ih =>
    intro g q h
    cases q with
    | nil => exact h
    | cons e rest =>
      rw [floodFill]
      refine ih _ _ ?_
      exact (preserve_foldl (fun st : Grid Int × List (Nat × Nat × Int) => SquareGrid st.1 n)
        (floodStep n e) (fun st dd hst => by
          unfold floodStep
          split
          · exact squareGrid_set hst _ _ _
          · exact hst) _ (g, rest) h)

theorem squareGrid_attemptRegions (n : Nat) (picks : List Nat) :
    SquareGrid (attemptRegions n picks) n := by
  unfold attemptRegions
  refine squareGrid_floodFill n _ _ _ ?_
  exact preserve_foldl (fun g : Grid Int => SquareGrid g n)
    _ (fun g s hg => squareGrid_set hg _ _ _) _ _ (squareGrid_replicate _ n)

theorem squareGrid_smoothing (g : Grid Int) (n : Nat) (h : SquareGrid g n) :
    SquareGrid (performConservativeSmoothing g n) n := by
  unfold performConservativeSmoothing
  refine preserve_foldl (fun g : Grid Int => SquareGrid g n) _ ?_ _ _ h
  intro res rc hres
  unfold smoothCellStep
  split
  · split
    · exact squareGrid_set hres _ _ _
    · exact hres
  · exact hres

/-! Inversion of the accepted path. -/

theorem acceptedRegions_inv (n : Nat) :
    ∀ (l : List (List Nat)) (g : Grid Int), acceptedRegions n l = some g →
    ∃ picks, picks ∈ l ∧
      (dedupFirst (gridValuesList (attemptRegions n picks) n)).length = n ∧
      layoutValid (attemptRegions n picks) n = true ∧
      (dedupFirst (gridValuesList
        (performConservativeSmoothing (attemptRegions n picks) n) n)).length = n ∧
      isPuzzleSolvable (Puzzle.mk n (normalizeRegionIds
        (performConservativeSmoothing (attemptRegions n picks) n))) = true ∧
      g = normalizeRegionIds (performConservativeSmoothing (attemptRegions n picks) n) := by
  intro l
  induction l with
  | nil =>
    intro g h
    simp [acceptedRegions] at h
  | cons picks rest ih =>
    intro g h
    rw [acceptedRegions] at h
    by_cases h1 : (dedupFirst (gridValuesList (attemptRegions n picks) n)).length ≠ n
    · rw [if_pos h1] at h
      obtain ⟨q, hq, hrest⟩ := ih g h
      exact ⟨q, List.mem_cons_of_mem _ hq, hrest⟩
    · rw [if_neg h1] at h
      by_cases h2 : layoutValid (attemptRegions n picks) n = false
      · rw [if_pos h2] at h
        obtain ⟨q, hq, hrest⟩ := ih g h
        exact ⟨q, List.mem_cons_of_mem _ hq, hrest⟩
      · rw [if_neg h2] at h
        by_cases h3 : (dedupFirst (gridValuesList
            (performConservativeSmoothing (attemptRegions n picks) n) n)).length = n ∧
            isPuzzleSolvable (Puzzle.mk n (normalizeRegionIds
              (performConservativeSmoothing (attemptRegions n picks) n))) = true
        · rw [if_pos h3] at h
          refine ⟨picks, List.mem_cons_self _ _, not_not.mp h1, ?_, h3.1, h3.2,
            (Option.some.injEq _ _ ▸ h).symm⟩
          cases hlv : layoutValid (attemptRegions n picks) n
          · exact absurd hlv h2
          · rfl
        · rw [if_neg h3] at h
          obtain ⟨q, hq, hrest⟩ := ih g h
          exact ⟨q, List.mem_cons_of_mem _ hq, hrest⟩

/-- C5: for every board size in the supported range and every pick stream (in
particular every PRNG seed), `generateRegions` returns a grid whose set of
values is exactly the labels 0..n-1, each present — both on the accepted path
(via `normalizeRegionIds`) and on every fallback pattern. -/
theorem c5_generateRegions_labels (n : Nat) (h4 : 4 ≤ n) (h9 : n ≤ 9)
    (attempts : List (List Nat)) :
    ∀ v : Int, v ∈ gridValuesList (generateRegions n attempts) n ↔
      (0 ≤ v ∧ v < (n : Int)) := by
  unfold generateRegions
  cases hacc : acceptedRegions n (attempts.take 10) with
  | none =>
    simpa using createFallbackRegions_values n (by omega)
  | some g =>
    simp only [Option.getD_some]
    obtain ⟨picks, _, h1, _, h3, _, hg⟩ := acceptedRegions_inv n _ g hacc
    rw [hg]
    exact normalize_values _ n
      (squareGrid_smoothing _ n (squareGrid_attemptRegions n picks)).1 h3

/-- Witness for C5 at a concrete size and pick stream. -/
theorem c5_generateRegions_labels_witness :
    ((4 ≤ 5 ∧ 5 ≤ 9) ∧
      ∀ v : Int, v ∈ gridValuesList (generateRegions 5 [[0, 7, 13, 19, 21]]) 5 ↔
        (0 ≤ v ∧ v < (5 : Int))) :=
  ⟨⟨by decide, by decide⟩, c5_generateRegions_labels 5 (by decide) (by decide) _⟩

/-! Connectivity of the accepted-path grids (C6). -/

/-- Orthogonal (4-directional) adjacency of two cells. -/
def Adjacent (a b2 : Nat × Nat) : Prop :=
  (a.1 = b2.1 ∧ (a.2 = b2.2 + 1 ∨ b2.2 = a.2 + 1)) ∨
  (a.2 = b2.2 ∧ (a.1 = b2.1 + 1 ∨ b2.1 = a.1 + 1))

/-- One step between adjacent cells that both hold label `v`. -/
def StepSame (g : Grid Int) (v : Int) (a b2 : Nat × Nat) : Prop :=
  gridGet (-1) g a.1 a.2 = v ∧ gridGet (-1) g b2.1 b2.2 = v ∧ Adjacent a b2

/-- All cells holding label `v` lie in one 4-connected component. -/
def LabelConnected (g : Grid Int) (v : Int) : Prop :=
  ∀ a b2 : Nat × Nat, gridGet (-1) g a.1 a.2 = v → gridGet (-1) g b2.1 b2.2 = v →
    Relation.ReflTransGen (StepSame g v) a b2

/-- Every nonnegative label's cells form one 4-connected component. -/
def GridConnected (g : Grid Int) : Prop := ∀ v : Int, 0 ≤ v → LabelConnected g v

/-- Grid `g2` keeps every nonnegative cell value of `g` (flood fill only turns
`-1` cells nonnegative, so it extends the grid in this sense). -/
def ExtendsG (g g2 : Grid Int) : Prop :=
  ∀ (r c : Nat) (v : Int), 0 ≤ v → gridGet (-1) g r c = v → gridGet (-1) g2 r c = v

theorem extendsG_refl (g : Grid Int) : ExtendsG g g := fun _ _ _ _ h => h

theorem extendsG_trans {g1 g2 g3 : Grid Int} (h12 : ExtendsG g1 g2)
    (h23 : ExtendsG g2 g3) : ExtendsG g1 g3 :=
  fun r c v hv h => h23 r c v hv (h12 r c v hv h)

theorem adjacent_symm : Symmetric Adjacent := by
  intro a b2 h
  unfold Adjacent at h ⊢
  tauto

theorem stepSame_symm (g : Grid Int) (v : Int) : Symmetric (StepSame g v) := by
  intro a b2 h
  exact ⟨h.2.1, h.1, adjacent_symm h.2.2⟩

theorem stepSame_mono {g g2 : Grid Int} {v : Int} (hv : 0 ≤ v) (hext : ExtendsG g g2)
    {a b2 : Nat × Nat} (h : StepSame g v a b2) : StepSame g2 v a b2 :=
  ⟨hext _ _ _ hv h.1, hext _ _ _ hv h.2.1, h.2.2⟩

theorem pathSame_mono {g g2 : Grid Int} {v : Int} (hv : 0 ≤ v) (hext : ExtendsG g g2)
    {a b2 : Nat × Nat} (h : Relation.ReflTransGen (StepSame g v) a b2) :
    Relation.ReflTransGen (StepSame g2 v) a b2 :=
  h.mono fun _ _ hs => stepSame_mono hv hext hs

/-- Assigning a label to a `-1` cell that is adjacent to a cell already holding
that label preserves squareness, extends the grid and keeps every label's
cells connected. -/
theorem assign_preserves {n : Nat} {g : Grid Int} (hsq : SquareGrid g n)
    (hcon : GridConnected g) {x : Nat × Nat} (hx1 : x.1 < n) (hx2 : x.2 < n)
    (hempty : gridGet (-1) g x.1 x.2 = -1) {id : Int} (hid : 0 ≤ id)
    {y : Nat × Nat} (hy : gridGet (-1) g y.1 y.2 = id) (hadj : Adjacent x y) :
    SquareGrid (gridSet g x.1 x.2 id) n ∧ ExtendsG g (gridSet g x.1 x.2 id) ∧
      GridConnected (gridSet g x.1 x.2 id) := by
  set g2 := gridSet g x.1 x.2 id with hg2
  have hget : ∀ a : Nat × Nat, gridGet (-1) g2 a.1 a.2 =
      if a = x then id else gridGet (-1) g a.1 a.2 := by
    intro a
    rw [hg2, gridGet_set (-1) g hsq x.1 x.2 id a.1 a.2]
    by_cases hax : a = x
    · rw [if_pos hax, if_pos ⟨by rw [hax], by rw [hax], hx1, hx2⟩]
    · have hcond : ¬(x.1 = a.1 ∧ x.2 = a.2 ∧ x.1 < n ∧ x.2 < n) := fun hcond =>
        hax (Prod.ext hcond.1.symm hcond.2.1.symm)
      rw [if_neg hax, if_neg hcond]
  have hext : ExtendsG g g2 := by
    intro r c v hv hval
    rw [hget (r, c)]
    by_cases hrx : (r, c) = x
    · exfalso
      have : gridGet (-1) g r c = -1 := by
        rw [show r = x.1 by rw [← hrx], show c = x.2 by rw [← hrx]]
        exact hempty
      omega
    · rw [if_neg hrx]
      exact hval
  have hyx : y ≠ x := by
    intro h
    rw [h] at hy
    rw [hempty] at hy
    omega
  refine ⟨squareGrid_set hsq x.1 x.2 id, hext, ?_⟩
  have hy2 : gridGet (-1) g2 y.1 y.2 = id := hext _ _ _ hid hy
  have hx2v : gridGet (-1) g2 x.1 x.2 = id := by
    rw [hget x, if_pos rfl]
  -- a path in the new grid from x to any old cell of label id
  have hfromX : ∀ z : Nat × Nat, gridGet (-1) g z.1 z.2 = id →
      Relation.ReflTransGen (StepSame g2 id) x z := by
    intro z hz
    have hzx : z ≠ x := by
      intro h
      rw [h, hempty] at hz
      omega
    refine Relation.ReflTransGen.head ⟨hx2v, hy2, hadj⟩ ?_
    exact pathSame_mono hid hext (hcon id hid y z hy hz)
  intro v hv a b2 ha hb
  by_cases hax : a = x <;> by_cases hbx : b2 = x
  · rw [hax, hbx]
  · have hvid : v = id := by
      rw [hget a, if_pos hax] at ha
      omega
    have hbold : gridGet (-1) g b2.1 b2.2 = v := by
      rw [hget b2, if_neg hbx] at hb
      exact hb
    rw [hax, hvid]
    exact hfromX b2 (hvid ▸ hbold)
  · have hvid : v = id := by
      rw [hget b2, if_pos hbx] at hb
      omega
    have haold : gridGet (-1) g a.1 a.2 = v := by
      rw [hget a, if_neg hax] at ha
      exact ha
    rw [hbx, hvid]
    exact Relation.ReflTransGen.symmetric (stepSame_symm g2 id)
      (hfromX a (hvid ▸ haold))
  · have haold : gridGet (-1) g a.1 a.2 = v := by
      rw [hget a, if_neg hax] at ha
      exact ha
    have hbold : gridGet (-1) g b2.1 b2.2 = v := by
      rw [hget b2, if_neg hbx] at hb
      exact hb
    exact pathSame_mono hv hext (hcon v hv a b2 haold hbold)

/-- Invariant of the multi-source BFS: the grid is square, extends the seeded
start grid, keeps every label connected, every queue entry records its cell's
label (a seed id in `[0, k)`), and every cell is unassigned or holds a label
in `[0, k)`. -/
def FloodInv (n k : Nat) (g0 g : Grid Int) (q : List (Nat × Nat × Int)) : Prop :=
  SquareGrid g n ∧ ExtendsG g0 g ∧ GridConnected g ∧
  (∀ e ∈ q, 0 ≤ e.2.2 ∧ e.2.2 < (k : Int) ∧ gridGet (-1) g e.1 e.2.1 = e.2.2) ∧
  (∀ r c, gridGet (-1) g r c = -1 ∨
    (0 ≤ gridGet (-1) g r c ∧ gridGet (-1) g r c < (k : Int)))

/-- What survives of the invariant on the final grid. -/
def FloodOut (n k : Nat) (g0 gR : Grid Int) : Prop :=
  SquareGrid gR n ∧ ExtendsG g0 gR ∧ GridConnected gR ∧
  (∀ r c, gridGet (-1) gR r c = -1 ∨
    (0 ≤ gridGet (-1) gR r c ∧ gridGet (-1) gR r c < (k : Int)))

theorem orthoDirs_offsets : ∀ dd ∈ orthoDirs,
    dd = ((-1 : Int), (0 : Int)) ∨ dd = (1, 0) ∨ dd = (0, -1) ∨ dd = (0, 1) := by
  decide

theorem adjacent_of_offset {dd : Int × Int}
    (hdd : dd = ((-1 : Int), (0 : Int)) ∨ dd = (1, 0) ∨ dd = (0, -1) ∨ dd = (0, 1))
    (e1 e2 : Nat) (hb1 : 0 ≤ (e1 : Int) + dd.1) (hb2 : 0 ≤ (e2 : Int) + dd.2) :
    Adjacent (((e1 : Int) + dd.1).toNat, ((e2 : Int) + dd.2).toNat) (e1, e2) := by
  rcases hdd with h | h | h | h <;> subst h <;> unfold Adjacent <;> simp only
  · exact Or.inr ⟨by omega, Or.inr (by omega)⟩
  · exact Or.inr ⟨by omega, Or.inl (by omega)⟩
  · exact Or.inl ⟨by omega, Or.inr (by omega)⟩
  · exact Or.inl ⟨by omega, Or.inl (by omega)⟩

theorem floodFill_spec (n k : Nat) (g0 : Grid Int) :
    ∀ fuel (g : Grid Int) (q : List (Nat × Nat × Int)), FloodInv n k g0 g q →
      FloodOut n k g0 (floodFill n fuel g q) := by
  intro fuel
  induction fuel with
  | zero =>
    rintro g q ⟨h1, h2, h3, _, h5⟩
    exact ⟨h1, h2, h3, h5⟩
  | succ fuel ih =>
    rintro g q hinv
    cases q with
    | nil =>
      obtain ⟨h1, h2, h3, _, h5⟩ := hinv
      exact ⟨h1, h2, h3, h5⟩
    | cons e rest =>
      obtain ⟨hsq, hext, hcon, hq, hvals⟩ := hinv
      have he := hq e (List.mem_cons_self _ _)
      rw [floodFill]
      refine ih _ _ ?_
      have hfold := preserve_foldl_mem
        (fun st : Grid Int × List (Nat × Nat × Int) =>
          SquareGrid st.1 n ∧ ExtendsG g0 st.1 ∧ GridConnected st.1 ∧
          (∀ e2 ∈ st.2, 0 ≤ e2.2.2 ∧ e2.2.2 < (k : Int) ∧
            gridGet (-1) st.1 e2.1 e2.2.1 = e2.2.2) ∧
          (∀ r c, gridGet (-1) st.1 r c = -1 ∨
            (0 ≤ gridGet (-1) st.1 r c ∧ gridGet (-1) st.1 r c < (k : Int))) ∧
          gridGet (-1) st.1 e.1 e.2.1 = e.2.2)
        (floodStep n e) orthoDirs ?_ (g, rest)
        ⟨hsq, hext, hcon, fun e2 he2 => hq e2 (List.mem_cons_of_mem _ he2), hvals, he.2.2⟩
      · exact ⟨hfold.1, hfold.2.1, hfold.2.2.1, hfold.2.2.2.1, hfold.2.2.2.2.1⟩
      · intro st dd hdd hst
        obtain ⟨hsq1, hext1, hcon1, hq1, hvals1, hhead1⟩ := hst
        unfold floodStep
        split
        · rename_i hc
          obtain ⟨hc1, hc2, hc3, hc4, hc5⟩ := hc
          have hx1 : ((e.1 : Int) + dd.1).toNat < n := by omega
          have hx2 : ((e.2.1 : Int) + dd.2).toNat < n := by omega
          have hadj : Adjacent (((e.1 : Int) + dd.1).toNat, ((e.2.1 : Int) + dd.2).toNat)
              (e.1, e.2.1) := adjacent_of_offset (orthoDirs_offsets dd hdd) e.1 e.2.1 hc1 hc3
          obtain ⟨hsq2, hext2, hcon2⟩ := assign_preserves hsq1 hcon1
            (x := (((e.1 : Int) + dd.1).toNat, ((e.2.1 : Int) + dd.2).toNat))
            hx1 hx2 hc5 he.1 (y := (e.1, e.2.1)) hhead1 hadj
          have hnewcell : gridGet (-1)
              (gridSet st.1 ((e.1 : Int) + dd.1).toNat ((e.2.1 : Int) + dd.2).toNat e.2.2)
              ((e.1 : Int) + dd.1).toNat ((e.2.1 : Int) + dd.2).toNat = e.2.2 := by
            rw [gridGet_set (-1) st.1 hsq1 _ _ _ _ _, if_pos ⟨rfl, rfl, hx1, hx2⟩]
          refine ⟨hsq2, extendsG_trans hext1 hext2, hcon2, ?_, ?_, hext2 _ _ _ he.1 hhead1⟩
          · intro e2 he2
            rcases List.mem_append.mp he2 with h | h
            · have := hq1 e2 h
              exact ⟨this.1, this.2.1, hext2 _ _ _ this.1 this.2.2⟩
            · rw [List.mem_singleton] at h
              subst h
              exact ⟨he.1, he.2.1, hnewcell⟩
          · intro r c
            rw [gridGet_set (-1) st.1 hsq1 _ _ _ r c]
            by_cases hcase : ((e.1 : Int) + dd.1).toNat = r ∧
                ((e.2.1 : Int) + dd.2).toNat = c ∧
                ((e.1 : Int) + dd.1).toNat < n ∧ ((e.2.1 : Int) + dd.2).toNat < n
            · rw [if_pos hcase]
              exact Or.inr ⟨he.1, he.2.1⟩
            · rw [if_neg hcase]
              exact hvals1 r c
        · exact ⟨hsq1, hext1, hcon1, hq1, hvals1, hhead1⟩

theorem negOneGrid_get (n r c : Nat) : gridGet (-1) (negOneGrid n) r c = -1 := by
  unfold negOneGrid gridGet
  have hrow : (List.replicate n (List.replicate n (-1 : Int))).getD r [] =
      List.replicate n (-1) ∨
      (List.replicate n (List.replicate n (-1 : Int))).getD r [] = [] := by
    rcases Nat.lt_or_ge r n with hr | hr
    · left
      rw [List.getD_eq_getElem (List.replicate n (List.replicate n (-1 : Int))) []
        (by simpa using hr)]
      simp
    · right
      exact List.getD_eq_default _ _ (by simpa using hr)
  rcases hrow with h | h <;> rw [h]
  · rcases Nat.lt_or_ge c n with hc | hc
    · rw [List.getD_eq_getElem (List.replicate n (-1 : Int)) (-1) (by simpa using hc)]
      simp
    · exact List.getD_eq_default _ _ (by simpa using hc)
  · simp

theorem foldl_gridSet_cells (n : Nat) :
    ∀ (ss : List (Nat × Nat × Int)) (B : Grid Int),
      List.Pairwise (fun s t => (s.1, s.2.1) ≠ (t.1, t.2.1)) ss →
      (∀ s ∈ ss, s.1 < n ∧ s.2.1 < n) →
      SquareGrid B n →
      ∀ r c, (∃ s ∈ ss, s.1 = r ∧ s.2.1 = c ∧
          gridGet (-1) (ss.foldl (fun g s => gridSet g s.1 s.2.1 s.2.2) B) r c = s.2.2) ∨
        ((∀ s ∈ ss, ¬(s.1 = r ∧ s.2.1 = c)) ∧
          gridGet (-1) (ss.foldl (fun g s => gridSet g s.1 s.2.1 s.2.2) B) r c =
            gridGet (-1) B r c) := by
  intro ss
  induction ss with
  | nil =>
    intro B _ _ _ r c
    exact Or.inr ⟨by simp, rfl⟩
  | cons s t ih =>
    intro B hpw hrange hsq r c
    have hpw' := List.pairwise_cons.mp hpw
    simp only [List.foldl_cons]
    have hsb : SquareGrid (gridSet B s.1 s.2.1 s.2.2) n := squareGrid_set hsq _ _ _
    have hres := ih (gridSet B s.1 s.2.1 s.2.2) hpw'.2
      (fun x hx => hrange x (List.mem_cons_of_mem _ hx)) hsb r c
    by_cases hsc : s.1 = r ∧ s.2.1 = c
    · left
      refine ⟨s, List.mem_cons_self _ _, hsc.1, hsc.2, ?_⟩
      rcases hres with ⟨s2, hs2, h1, h2, h3⟩ | ⟨hnone, heq⟩
      · exact absurd (by rw [hsc.1, hsc.2, h1, h2] :
          (s.1, s.2.1) = (s2.1, s2.2.1)) (hpw'.1 s2 hs2)
      · rw [heq, gridGet_set (-1) B hsq _ _ _ r c,
          if_pos ⟨hsc.1, hsc.2, hsc.1 ▸ (hrange s (List.mem_cons_self _ _)).1,
            hsc.2 ▸ (hrange s (List.mem_cons_self _ _)).2⟩]
    · rcases hres with ⟨s2, hs2, h1, h2, h3⟩ | ⟨hnone, heq⟩
      · exact Or.inl ⟨s2, List.mem_cons_of_mem _ hs2, h1, h2, h3⟩
      · refine Or.inr ⟨?_, ?_⟩
        · intro x hx
          rcases List.mem_cons.mp hx with h | h
          · rw [h]
            exact hsc
          · exact hnone x h
        · rw [heq, gridGet_set (-1) B hsq _ _ _ r c, if_neg (by tauto)]

theorem seedsOfPicks_mem_iff (n : Nat) (picks : List Nat) (s : Nat × Nat × Int) :
    s ∈ seedsOfPicks n picks ↔
      ∃ i, ∃ h : i < picks.length, s = (picks[i] / n, picks[i] % n, (i : Int)) := by
  unfold seedsOfPicks
  simp only [List.mem_map]
  constructor
  · rintro ⟨ik, hik, h⟩
    obtain ⟨i2, k2⟩ := ik
    have hm := List.mem_enum hik
    obtain ⟨hm1, hm2⟩ := hm
    dsimp only at h
    rw [hm2] at h
    exact ⟨i2, hm1, h.symm⟩
  · rintro ⟨i, hi, h⟩
    refine ⟨(i, picks[i]), ?_, h.symm⟩
    have hie : i < picks.enum.length := by simpa [List.enum_length] using hi
    have : picks.enum[i] = (i, picks[i]) := List.getElem_enum _ _ _
    rw [← this]
    exact List.getElem_mem _

/-- Full specification of one flood-fill attempt: the result is n-by-n, every
label's cells are connected, every cell is `-1` or a seed id, and every seed
id is still present at its seed cell. -/
theorem attemptRegions_spec (n : Nat) (picks : List Nat) (hnd : picks.Nodup)
    (hrange : ∀ k ∈ picks, k < n * n) :
    SquareGrid (attemptRegions n picks) n ∧ GridConnected (attemptRegions n picks) ∧
    (∀ r c, gridGet (-1) (attemptRegions n picks) r c = -1 ∨
      (0 ≤ gridGet (-1) (attemptRegions n picks) r c ∧
        gridGet (-1) (attemptRegions n picks) r c < (picks.length : Int))) ∧
    (∀ i : Nat, i < picks.length →
      ((i : Nat) : Int) ∈ gridValuesList (attemptRegions n picks) n) := by
  have hseedrange : ∀ s ∈ seedsOfPicks n picks, s.1 < n ∧ s.2.1 < n := by
    intro s hs
    obtain ⟨i, hi, hs⟩ := (seedsOfPicks_mem_iff n picks s).mp hs
    have hk : picks[i] < n * n := hrange _ (List.getElem_mem hi)
    have hn : 0 < n := by
      by_contra h
      have : n = 0 := by omega
      rw [this] at hk
      omega
    rw [hs]
    exact ⟨Nat.div_lt_iff_lt_mul hn |>.mpr hk, Nat.mod_lt _ hn⟩
  have hlen : (seedsOfPicks n picks).length = picks.length := by
    unfold seedsOfPicks
    simp [List.enum_length]
  have hgetseed : ∀ i, (h : i < picks.length) →
      (h2 : i < (seedsOfPicks n picks).length) →
      (seedsOfPicks n picks)[i] =
        (picks[i] / n, picks[i] % n, (i : Int)) := by
    intro i h h2
    unfold seedsOfPicks
    rw [List.getElem_map]
    rw [List.getElem_enum]
  have hpw : List.Pairwise (fun s t => (s.1, s.2.1) ≠ (t.1, t.2.1))
      (seedsOfPicks n picks) := by
    rw [List.pairwise_iff_getElem]
    intro i j hi hj hij heq
    have hi2 : i < picks.length := by omega
    have hj2 : j < picks.length := by omega
    rw [hgetseed i hi2 hi, hgetseed j hj2 hj] at heq
    simp only [Prod.mk.injEq] at heq
    obtain ⟨hdiv, hmod⟩ := heq
    have hdm1 := Nat.div_add_mod picks[i] n
    have hdm2 := Nat.div_add_mod picks[j] n
    have hmm : n * (picks[i] / n) = n * (picks[j] / n) := by rw [hdiv]
    have hk : picks[i] = picks[j] := by omega
    have := (hnd.getElem_inj_iff).mp hk
    omega
  have hcells := foldl_gridSet_cells n (seedsOfPicks n picks)
    (negOneGrid n) hpw hseedrange (squareGrid_replicate _ n)
  set g0 := (seedsOfPicks n picks).foldl (fun g s => gridSet g s.1 s.2.1 s.2.2)
    (negOneGrid n) with hg0
  have hseedval : ∀ i, (h : i < picks.length) →
      gridGet (-1) g0 (picks[i] / n) (picks[i] % n) = (i : Int) := by
    intro i hi
    rcases hcells (picks[i] / n) (picks[i] % n) with ⟨s, hs, h1, h2, h3⟩ | ⟨hnone, _⟩
    · obtain ⟨j, hj, hsj⟩ := (seedsOfPicks_mem_iff n picks s).mp hs
      have hk : picks[j] = picks[i] := by
        rw [hsj] at h1 h2
        simp only at h1 h2
        have hdm1 := Nat.div_add_mod picks[j] n
        have hdm2 := Nat.div_add_mod picks[i] n
        have hmm : n * (picks[j] / n) = n * (picks[i] / n) := by rw [h1]
        omega
      have hji : j = i := (hnd.getElem_inj_iff).mp hk
      subst hji
      rw [h3, hsj]
    · exfalso
      refine hnone (picks[i] / n, picks[i] % n, (i : Int)) ?_ ⟨rfl, rfl⟩
      rw [seedsOfPicks_mem_iff]
      exact ⟨i, hi, rfl⟩
  have hinv : FloodInv n picks.length g0 g0 (seedsOfPicks n picks) := by
    refine ⟨?_, extendsG_refl g0, ?_, ?_, ?_⟩
    · exact preserve_foldl (fun g : Grid Int => SquareGrid g n) _
        (fun g s hg => squareGrid_set hg _ _ _) _ _ (squareGrid_replicate _ n)
    · intro v hv a b2 ha hb
      rcases hcells a.1 a.2 with ⟨sa, hsa, ha1, ha2, ha3⟩ | ⟨_, heq⟩
      · rcases hcells b2.1 b2.2 with ⟨sb, hsb, hb1, hb2, hb3⟩ | ⟨_, heq⟩
        · obtain ⟨i, hi, hsi⟩ := (seedsOfPicks_mem_iff n picks sa).mp hsa
          obtain ⟨j, hj, hsj⟩ := (seedsOfPicks_mem_iff n picks sb).mp hsb
          have hva : sa.2.2 = v := by rw [← ha3, ha]
          have hvb : sb.2.2 = v := by rw [← hb3, hb]
          have hij : (i : Int) = (j : Int) := by
            rw [hsi] at hva
            rw [hsj] at hvb
            simp only at hva hvb
            omega
          have hij2 : i = j := by omega
          subst hij2
          have hsab : sa = sb := hsi.trans hsj.symm
          have hab : a = b2 := by
            have e1 : a = (sa.1, sa.2.1) := Prod.ext ha1.symm ha2.symm
            have e2 : b2 = (sb.1, sb.2.1) := Prod.ext hb1.symm hb2.symm
            rw [e1, e2, hsab]
          rw [hab]
        · rw [negOneGrid_get] at heq
          rw [heq] at hb
          omega
      · rw [negOneGrid_get] at heq
        rw [heq] at ha
        omega
    · intro e he
      obtain ⟨i, hi, hsi⟩ := (seedsOfPicks_mem_iff n picks e).mp he
      rw [hsi]
      refine ⟨Int.ofNat_nonneg i, ?_, hseedval i hi⟩
      show ((i : Nat) : Int) < (picks.length : Int)
      exact_mod_cast hi
    · intro r c
      rcases hcells r c with ⟨s, hs, h1, h2, h3⟩ | ⟨_, heq⟩
      · obtain ⟨i, hi, hsi⟩ := (seedsOfPicks_mem_iff n picks s).mp hs
        right
        rw [h3, hsi]
        refine ⟨Int.ofNat_nonneg i, ?_⟩
        show ((i : Nat) : Int) < (picks.length : Int)
        exact_mod_cast hi
      · left
        rw [heq, negOneGrid_get]
  have hout : FloodOut n picks.length g0 (attemptRegions n picks) := by
    have := floodFill_spec n picks.length g0 (n * n + (seedsOfPicks n picks).length)
      g0 (seedsOfPicks n picks) hinv
    exact this
  obtain ⟨hsq, hext, hcon, hvals⟩ := hout
  refine ⟨hsq, hcon, hvals, ?_⟩
  intro i hi
  have hv := hext _ _ _ (by omega : (0 : Int) ≤ (i : Int)) (hseedval i hi)
  rw [mem_gridValuesList]
  have hn : 0 < n := by
    have hk : picks[i] < n * n := hrange _ (List.getElem_mem hi)
    by_contra h
    have : n = 0 := by omega
    rw [this] at hk
    omega
  exact ⟨picks[i] / n, picks[i] % n,
    Nat.div_lt_iff_lt_mul hn |>.mpr (hrange _ (List.getElem_mem hi)), Nat.mod_lt _ hn, hv⟩

/-! The smoothing pass is the identity on a grid whose labels are all
connected and nonnegative. -/

theorem foldl_id {α β : Type} (step : β → α → β) (g : β) :
    ∀ l : List α, (∀ a ∈ l, step g a = g) → l.foldl step g = g := by
  intro l
  induction l with
  | nil => intro _; rfl
  | cons a t ih =>
    intro h
    rw [List.foldl_cons, h a (List.mem_cons_self _ _)]
    exact ih fun x hx => h x (List.mem_cons_of_mem _ hx)

theorem nodup_pairsUpTo (n : Nat) : (pairsUpTo n).Nodup := by
  unfold pairsUpTo
  rw [List.nodup_flatMap]
  constructor
  · intro r _
    exact (List.nodup_range n).map fun a b h => by simpa using h
  · rw [List.pairwise_iff_getElem]
    intro i j hi hj hij
    intro x hx1 hx2
    simp only [List.mem_map] at hx1 hx2
    obtain ⟨c1, _, h1⟩ := hx1
    obtain ⟨c2, _, h2⟩ := hx2
    rw [List.getElem_range] at h1 h2
    have : i = j := by
      have e1 : x.1 = i := by rw [← h1]
      have e2 : x.1 = j := by rw [← h2]
      omega
    omega

theorem countP_two {α : Type} (p : α → Bool) :
    ∀ l : List α, l.Nodup → 1 < l.countP p →
      ∃ a b2, a ≠ b2 ∧ a ∈ l ∧ b2 ∈ l ∧ p a = true ∧ p b2 = true := by
  intro l
  induction l with
  | nil =>
    intro _ h
    simp [List.countP_nil] at h
  | cons a t ih =>
    intro hnd h
    rw [List.countP_cons] at h
    by_cases hp : p a = true
    · have h1 : 0 < t.countP p := by
        rw [if_pos hp] at h
        omega
      obtain ⟨b2, hb2, hpb⟩ := List.countP_pos_iff.mp h1
      refine ⟨a, b2, ?_, List.mem_cons_self _ _, List.mem_cons_of_mem _ hb2, hp, hpb⟩
      intro he
      exact (List.nodup_cons.mp hnd).1 (he ▸ hb2)
    · have h2 : 1 < t.countP p := by
        rw [if_neg hp] at h
        omega
      obtain ⟨a2, b2, hne, ha2, hb2, hpa, hpb⟩ := ih (List.nodup_cons.mp hnd).2 h2
      exact ⟨a2, b2, hne, List.mem_cons_of_mem _ ha2, List.mem_cons_of_mem _ hb2, hpa, hpb⟩

theorem two_cells_of_count (g : Grid Int) (n : Nat) (u : Int)
    (h : (gridValuesList g n).count u > 1) :
    ∃ a b2 : Nat × Nat, a ≠ b2 ∧ (a.1 < n ∧ a.2 < n) ∧ (b2.1 < n ∧ b2.2 < n) ∧
      gridGet (-1) g a.1 a.2 = u ∧ gridGet (-1) g b2.1 b2.2 = u := by
  unfold gridValuesList at h
  rw [List.count_eq_countP, List.countP_map] at h
  obtain ⟨a, b2, hne, ha, hb, hpa, hpb⟩ :=
    countP_two _ (pairsUpTo n) (nodup_pairsUpTo n) h
  simp only [Function.comp_apply, beq_iff_eq] at hpa hpb
  rw [show a = (a.1, a.2) from rfl, mem_pairsUpTo] at ha
  rw [show b2 = (b2.1, b2.2) from rfl, mem_pairsUpTo] at hb
  exact ⟨a, b2, hne, ha, hb, hpa, hpb⟩

theorem smoothStatStep_fst_le (res : Grid Int) (n : Nat) (rc : Nat × Nat) (id : Int)
    (st : Nat × Nat × Int) (dd : Int × Int) :
    st.1 ≤ (smoothStatStep res n rc id st dd).1 := by
  unfold smoothStatStep
  split
  · split
    · simp
    · simp
  · exact Nat.le_refl _

theorem smoothStats_foldl_fst_le (res : Grid Int) (n : Nat) (rc : Nat × Nat) (id : Int) :
    ∀ (l : List (Int × Int)) (st : Nat × Nat × Int),
      st.1 ≤ (l.foldl (smoothStatStep res n rc id) st).1 := by
  intro l
  induction l with
  | nil => exact fun st => Nat.le_refl _
  | cons dd t ih =>
    intro st
    rw [List.foldl_cons]
    exact Nat.le_trans (smoothStatStep_fst_le res n rc id st dd) (ih _)

theorem smoothStats_fst_pos (res : Grid Int) (n : Nat) (rc : Nat × Nat) (id : Int)
    (dd : Int × Int) (hdd : dd ∈ orthoDirs)
    (hb : 0 ≤ (rc.1 : Int) + dd.1 ∧ (rc.1 : Int) + dd.1 < (n : Int) ∧
      0 ≤ (rc.2 : Int) + dd.2 ∧ (rc.2 : Int) + dd.2 < (n : Int))
    (hv : gridGet (-1) res ((rc.1 : Int) + dd.1).toNat ((rc.2 : Int) + dd.2).toNat = id) :
    0 < (smoothStats res n rc id).1 := by
  obtain ⟨s, t, hst⟩ := List.append_of_mem hdd
  unfold smoothStats
  rw [hst, List.foldl_append, List.foldl_cons]
  refine Nat.lt_of_lt_of_le ?_ (smoothStats_foldl_fst_le res n rc id t _)
  rw [show smoothStatStep res n rc id (s.foldl (smoothStatStep res n rc id) (0, 0, -1)) dd =
    ((s.foldl (smoothStatStep res n rc id) (0, 0, -1)).1 + 1,
      (s.foldl (smoothStatStep res n rc id) (0, 0, -1)).2.1 + 1,
      (s.foldl (smoothStatStep res n rc id) (0, 0, -1)).2.2) from by
      unfold smoothStatStep
      rw [if_pos hb, if_pos hv]]
  omega

theorem smoothing_id (g : Grid Int) (n : Nat) (hsq : SquareGrid g n)
    (hcon : GridConnected g)
    (hnonneg : ∀ r c, r < n → c < n → 0 ≤ gridGet (-1) g r c) :
    performConservativeSmoothing g n = g := by
  unfold performConservativeSmoothing
  apply foldl_id
  intro rc hrc
  have hbnd := (mem_pairsUpTo n rc.1 rc.2).mp (by
    rw [show (rc.1, rc.2) = rc from rfl]
    exact hrc)
  unfold smoothCellStep
  by_cases hcond : (smoothStats g n rc (gridGet (-1) g rc.1 rc.2)).2.1 > 0 ∧
      (smoothStats g n rc (gridGet (-1) g rc.1 rc.2)).1 = 0 ∧
      (smoothStats g n rc (gridGet (-1) g rc.1 rc.2)).2.2 ≠ -1
  · rw [if_pos hcond]
    have hcount : ¬ (gridValuesList g n).count (gridGet (-1) g rc.1 rc.2) > 1 := by
      intro hgt
      obtain ⟨a, b2, hne, hab, hbb, hva, hvb⟩ := two_cells_of_count g n _ hgt
      have hy : ∃ y : Nat × Nat, y ≠ rc ∧
          gridGet (-1) g y.1 y.2 = gridGet (-1) g rc.1 rc.2 := by
        by_cases hax : a = rc
        · exact ⟨b2, by rw [← hax]; exact hne.symm, hvb⟩
        · exact ⟨a, hax, hva⟩
      obtain ⟨y, hyne, hyv⟩ := hy
      have hid0 : 0 ≤ gridGet (-1) g rc.1 rc.2 := hnonneg rc.1 rc.2 hbnd.1 hbnd.2
      have hpath := hcon _ hid0 rc y rfl hyv
      rcases Relation.ReflTransGen.cases_head hpath with heq | ⟨z, hstep, _⟩
      · exact hyne heq.symm
      · obtain ⟨_, hz, hadj⟩ := hstep
        have hzb := bounds_of_gridGet_ne hsq (r := z.1) (c := z.2) (by
          rw [hz]
          omega)
        have hdd : ∃ dd ∈ orthoDirs,
            (0 ≤ (rc.1 : Int) + dd.1 ∧ (rc.1 : Int) + dd.1 < (n : Int) ∧
              0 ≤ (rc.2 : Int) + dd.2 ∧ (rc.2 : Int) + dd.2 < (n : Int)) ∧
            ((rc.1 : Int) + dd.1).toNat = z.1 ∧ ((rc.2 : Int) + dd.2).toNat = z.2 := by
          rcases hadj with ⟨h1, h2 | h2⟩ | ⟨h1, h2 | h2⟩
          · exact ⟨(0, -1), by decide, ⟨by omega, by omega, by omega, by omega⟩,
              by omega, by omega⟩
          · exact ⟨(0, 1), by decide, ⟨by omega, by omega, by omega, by omega⟩,
              by omega, by omega⟩
          · exact ⟨(-1, 0), by decide, ⟨by omega, by omega, by omega, by omega⟩,
              by omega, by omega⟩
          · exact ⟨(1, 0), by decide, ⟨by omega, by omega, by omega, by omega⟩,
              by omega, by omega⟩
        obtain ⟨dd, hddmem, hbds, hz1, hz2⟩ := hdd
        have hpos := smoothStats_fst_pos g n rc (gridGet (-1) g rc.1 rc.2) dd hddmem hbds
          (by rw [hz1, hz2]; exact hz)
        omega
    rw [if_neg hcount]
  · rw [if_neg hcond]

/-- With n distinct picks and the distinct-label guard passed, the attempt
grid's values are exactly the labels 0..n-1 (in particular no cell is left
unassigned). -/
theorem attempt_values_exact (n : Nat) (picks : List Nat) (hnd : picks.Nodup)
    (hrange : ∀ k ∈ picks, k < n * n) (hplen : picks.length = n)
    (hguard : (dedupFirst (gridValuesList (attemptRegions n picks) n)).length = n) :
    ∀ v : Int, v ∈ gridValuesList (attemptRegions n picks) n ↔
      (0 ≤ v ∧ v < (n : Int)) := by
  obtain ⟨hsq, hcon, hvals, hpresent⟩ := attemptRegions_spec n picks hnd hrange
  have hTcard : (gridValuesList (attemptRegions n picks) n).toFinset.card = n := by
    rw [toFinset_card_eq_dedupFirst]
    exact hguard
  have hSsub : Finset.image (fun i : Nat => (i : Int)) (Finset.range n) ⊆
      (gridValuesList (attemptRegions n picks) n).toFinset := by
    intro v hv
    simp only [Finset.mem_image, Finset.mem_range] at hv
    obtain ⟨i, hi, hiv⟩ := hv
    rw [List.mem_toFinset, ← hiv]
    exact hpresent i (by omega)
  have hScard : (Finset.image (fun i : Nat => (i : Int)) (Finset.range n)).card = n := by
    rw [Finset.card_image_of_injective _ fun a b h => by exact_mod_cast h]
    exact Finset.card_range n
  have hST : Finset.image (fun i : Nat => (i : Int)) (Finset.range n) =
      (gridValuesList (attemptRegions n picks) n).toFinset :=
    Finset.eq_of_subset_of_card_le hSsub (by omega)
  intro v
  constructor
  · intro hvL
    have hm : v ∈ (gridValuesList (attemptRegions n picks) n).toFinset :=
      List.mem_toFinset.mpr hvL
    rw [← hST] at hm
    simp only [Finset.mem_image, Finset.mem_range] at hm
    obtain ⟨i, hi, hiv⟩ := hm
    subst hiv
    exact ⟨Int.ofNat_nonneg i, by exact_mod_cast hi⟩
  · rintro ⟨h0, h1⟩
    have hm : v ∈ Finset.image (fun i : Nat => (i : Int)) (Finset.range n) := by
      simp only [Finset.mem_image, Finset.mem_range]
      exact ⟨v.toNat, by omega, Int.toNat_of_nonneg h0⟩
    rw [hST] at hm
    exact List.mem_toFinset.mp hm

/-- Relabelling by `normalizeRegionIds` preserves connectivity when the grid's
values are exactly 0..n-1 (the accepted-path situation). -/
theorem normalize_connected (g : Grid Int) (n : Nat) (hlen : g.length = n)
    (hsq : SquareGrid g n)
    (hvals : ∀ v : Int, v ∈ gridValuesList g n ↔ (0 ≤ v ∧ v < (n : Int)))
    (hcon : GridConnected g) : GridConnected (normalizeRegionIds g) := by
  have hperm := List.mergeSort_perm (dedupFirst (gridValuesList g n))
    fun a b => decide (a ≤ b)
  set sorted := (dedupFirst (gridValuesList g n)).mergeSort fun a b => decide (a ≤ b)
    with hsorted
  have hmem : ∀ x, x ∈ sorted ↔ x ∈ gridValuesList g n := fun x =>
    hperm.mem_iff.trans (mem_dedupFirst _ _)
  have hsq2 : SquareGrid (normalizeRegionIds g) n := squareGrid_normalize hlen
  intro v hv a b2 ha hb
  have hba : a.1 < n ∧ a.2 < n := bounds_of_gridGet_ne hsq2 (by rw [ha]; omega)
  have hbb : b2.1 < n ∧ b2.2 < n := bounds_of_gridGet_ne hsq2 (by rw [hb]; omega)
  rw [gridGet_normalize hlen a.1 a.2 hba.1 hba.2, ← hsorted] at ha
  rw [gridGet_normalize hlen b2.1 b2.2 hbb.1 hbb.2, ← hsorted] at hb
  have hua : gridGet (-1) g a.1 a.2 ∈ gridValuesList g n :=
    (mem_gridValuesList g n _).mpr ⟨a.1, a.2, hba.1, hba.2, rfl⟩
  have hub : gridGet (-1) g b2.1 b2.2 ∈ gridValuesList g n :=
    (mem_gridValuesList g n _).mpr ⟨b2.1, b2.2, hbb.1, hbb.2, rfl⟩
  have hidx : sorted.indexOf (gridGet (-1) g a.1 a.2) =
      sorted.indexOf (gridGet (-1) g b2.1 b2.2) := by omega
  have huab : gridGet (-1) g a.1 a.2 = gridGet (-1) g b2.1 b2.2 :=
    indexOf_inj ((hmem _).mpr hua) ((hmem _).mpr hub) hidx
  have hu0 : 0 ≤ gridGet (-1) g a.1 a.2 := ((hvals _).mp hua).1
  have hpath := hcon _ hu0 a b2 rfl huab.symm
  refine hpath.mono ?_
  intro x y hs
  obtain ⟨hx, hy, hxy⟩ := hs
  have hbx : x.1 < n ∧ x.2 < n := bounds_of_gridGet_ne hsq (by rw [hx]; omega)
  have hby : y.1 < n ∧ y.2 < n := bounds_of_gridGet_ne hsq (by rw [hy]; omega)
  refine ⟨?_, ?_, hxy⟩
  · rw [gridGet_normalize hlen x.1 x.2 hbx.1 hbx.2, ← hsorted, hx, ← ha]
  · rw [gridGet_normalize hlen y.1 y.2 hby.1 hby.2, ← hsorted, hy, ← ha]

/-- C6: on the accepted (non-fallback) path — flood fill from distinct in-range
seed cells, the structural checks, conservative smoothing and normalization —
`generateRegions` returns a grid whose labels are exactly 0..n-1 and in which
every label's cells form a single 4-connected component. -/
theorem c6_generateRegions_accepted_connected (n : Nat) (attempts : List (List Nat))
    (hatt : ∀ a ∈ attempts, a.Nodup ∧ a.length = n ∧ ∀ k ∈ a, k < n * n) :
    ∀ g, acceptedRegions n (attempts.take 10) = some g →
      generateRegions n attempts = g ∧
      (∀ v : Int, v ∈ gridValuesList g n ↔ (0 ≤ v ∧ v < (n : Int))) ∧
      GridConnected g := by
  intro g hacc
  obtain ⟨picks, hpmem, h1, h2, h3, h4, hg⟩ := acceptedRegions_inv n _ g hacc
  obtain ⟨hpnd, hplen, hprange⟩ := hatt picks (List.take_subset 10 attempts hpmem)
  obtain ⟨hsq, hcon, hvals, hpresent⟩ := attemptRegions_spec n picks hpnd hprange
  have hvexact := attempt_values_exact n picks hpnd hprange hplen h1
  have hnonneg : ∀ r c, r < n → c < n →
      0 ≤ gridGet (-1) (attemptRegions n picks) r c := by
    intro r c hr hc
    have := (hvexact _).mp ((mem_gridValuesList _ _ _).mpr ⟨r, c, hr, hc, rfl⟩)
    exact this.1
  have hsm : performConservativeSmoothing (attemptRegions n picks) n =
      attemptRegions n picks := smoothing_id _ n hsq hcon hnonneg
  rw [hsm] at hg
  have hglen : (attemptRegions n picks).length = n := hsq.1
  refine ⟨?_, ?_, ?_⟩
  · unfold generateRegions
    rw [hacc]
    rfl
  · rw [hg]
    rw [hsm] at h3
    exact normalize_values _ n hglen h3
  · rw [hg]
    exact normalize_connected _ n hglen hsq hvexact hcon

/-- The accepted-path grid produced by the witness pick stream for size 4. -/
def c6WitnessGrid : Grid Int :=
  [[0, 0, 0, 1], [2, 0, 1, 1], [2, 2, 3, 1], [2, 3, 3, 3]]

/-- The witness pick stream is accepted and yields `c6WitnessGrid`: smoothing
and normalisation are computed explicitly (`mergeSort` of an already sorted
list is the list itself), the accept conditions by kernel evaluation. -/
theorem c6WitnessGrid_accepted :
    acceptedRegions 4 (([[1, 7, 8, 14]] : List (List Nat)).take 10) =
      some c6WitnessGrid := by
  have hsm : performConservativeSmoothing (attemptRegions 4 [1, 7, 8, 14]) 4 =
      c6WitnessGrid := by decide
  have hnorm : normalizeRegionIds c6WitnessGrid = c6WitnessGrid := by
    have hdedup : dedupFirst (gridValuesList c6WitnessGrid c6WitnessGrid.length) =
        ([0, 1, 2, 3] : List Int) := by decide
    have hsort : (([0, 1, 2, 3] : List Int).mergeSort fun a b => decide (a ≤ b)) =
        ([0, 1, 2, 3] : List Int) := List.mergeSort_of_sorted (by decide)
    simp only [normalizeRegionIds, hdedup, hsort]
    decide
  show acceptedRegions 4 [[1, 7, 8, 14]] = some c6WitnessGrid
  rw [acceptedRegions]
  rw [if_neg (show ¬ ((dedupFirst (gridValuesList (attemptRegions 4 [1, 7, 8, 14]) 4)).length ≠ 4)
    from by decide)]
  rw [if_neg (show ¬ (layoutValid (attemptRegions 4 [1, 7, 8, 14]) 4 = false) from by decide)]
  rw [if_pos (And.intro (show (dedupFirst (gridValuesList
      (performConservativeSmoothing (attemptRegions 4 [1, 7, 8, 14]) 4) 4)).length = 4
        from by rw [hsm]; decide)
    (show isPuzzleSolvable (Puzzle.mk 4 (normalizeRegionIds
        (performConservativeSmoothing (attemptRegions 4 [1, 7, 8, 14]) 4))) = true
      from by rw [hsm, hnorm]; decide))]
  rw [hsm, hnorm]

/-- Witness for C6 at a concrete accepted generation. -/
theorem c6_generateRegions_accepted_connected_witness :
    ((∀ a ∈ ([[1, 7, 8, 14]] : List (List Nat)),
        a.Nodup ∧ a.length = 4 ∧ ∀ k ∈ a, k < 4 * 4) ∧
      acceptedRegions 4 (([[1, 7, 8, 14]] : List (List Nat)).take 10) =
        some c6WitnessGrid) ∧
    (generateRegions 4 [[1, 7, 8, 14]] = c6WitnessGrid ∧
      (∀ v : Int, v ∈ gridValuesList c6WitnessGrid 4 ↔ (0 ≤ v ∧ v < (4 : Int))) ∧
      GridConnected c6WitnessGrid) :=
  ⟨⟨by decide, c6WitnessGrid_accepted⟩,
    c6_generateRegions_accepted_connected 4 [[1, 7, 8, 14]] (by decide)
      c6WitnessGrid c6WitnessGrid_accepted⟩

end Kweens
